import Mathlib

/-!
Verification of the streaming GUID scanner core of quuid.c (bitRAKE/tools).

The definitions below are a shallow embedding of the C source:
bytes are Nat (values below 256 in actual files), buffers and files are
List Nat, machine integers are Nat with explicit reduction modulo 2^32 or
2^64 where C overflow semantics matter, and fallible operations return
Option.  Unbounded C loops are embedded with an explicit fuel argument;
every call site passes fuel that provably exceeds the iteration count, and
running out of fuel models divergence of the C loop.  Win32 I/O is
abstracted: a file read either delivers min(CHUNK, remaining) bytes or
fails at a designated read index; heap allocation for hash-set growth is
an oracle, a list of Bool tokens consumed one per rehash attempt, where an
empty list means every allocation succeeds.
-/

namespace Quuid

/-! ### Small utilities (quuid.c lines 61-90) -/

/-- hex_val8: value of one hex digit, none for a non-hex byte
(the C function returns -1). -/
def hex_val8 (c : Nat) : Option Nat :=
  if 48 ≤ c ∧ c ≤ 57 then some (c - 48)
  else if 97 ≤ c ∧ c ≤ 102 then some (10 + (c - 97))
  else if 65 ≤ c ∧ c ≤ 70 then some (10 + (c - 65))
  else none

/-- Accumulation loop of parse_u32_hex_n: v = (v << 4) | hv on a 32-bit
unsigned long (MSVC), reading bytes p[off], p[off+1], ... . -/
def parse_hex_loop (p : List Nat) : Nat → Nat → Nat → Option Nat
  | v, _, 0 => some v
  | v, off, n + 1 =>
    match hex_val8 (p.getD off 0) with
    | none => none
    | some hv => parse_hex_loop p (((v <<< 4) ||| hv) % 4294967296) (off + 1) n

/-- parse_u32_hex_n over the n hex digits starting at index off. -/
def parse_u32_hex_n (p : List Nat) (off n : Nat) : Option Nat :=
  parse_hex_loop p 0 off n

/-- parse_u16_hex_n: parse_u32_hex_n followed by the (unsigned short) cast. -/
def parse_u16_hex_n (p : List Nat) (off n : Nat) : Option Nat :=
  (parse_u32_hex_n p off n).map (fun v => v % 65536)

/-! ### GUID (the Windows GUID struct) -/

/-- The GUID struct: 32-bit Data1, 16-bit Data2 and Data3, 8-byte Data4. -/
structure GUID where
  Data1 : Nat
  Data2 : Nat
  Data3 : Nat
  Data4 : List Nat
deriving DecidableEq, Repr

/-- The zero GUID; slots of a HEAP_ZERO_MEMORY allocated table hold it. -/
def gdefault : GUID := ⟨0, 0, 0, List.replicate 8 0⟩

/-- The 16 raw bytes of a GUID in memory layout: Data1, Data2, Data3
little-endian, then the Data4 bytes (this is what fnv1a64 hashes). -/
def guid_bytes (g : GUID) : List Nat :=
  [g.Data1 % 256, g.Data1 / 256 % 256, g.Data1 / 65536 % 256, g.Data1 / 16777216 % 256,
   g.Data2 % 256, g.Data2 / 256 % 256,
   g.Data3 % 256, g.Data3 / 256 % 256] ++ g.Data4

/-! ### Textual matcher (quuid.c lines 93-153) -/

/-- Validation pass of parse_guid_ascii36: dashes at 8, 13, 18, 23 and hex
digits everywhere else. -/
def isHexB (c : Nat) : Bool :=
  decide ((48 ≤ c ∧ c ≤ 57) ∨ (97 ≤ c ∧ c ≤ 102) ∨ (65 ≤ c ∧ c ≤ 70))

/-- The 36-position validation loop of parse_guid_ascii36. -/
def valid36 (p : List Nat) : Bool :=
  (List.range 36).all fun i =>
    if i = 8 ∨ i = 13 ∨ i = 18 ∨ i = 23 then decide (p.getD i 0 = 45)
    else isHexB (p.getD i 0)

/-- The last-12-hex-digits loop of parse_guid_ascii36: n bytes, the first
from the hex pair at index 24 + 2*i. -/
def d4Bytes (p : List Nat) : Nat → Nat → Option (List Nat)
  | _, 0 => some []
  | i, n + 1 =>
    match hex_val8 (p.getD (24 + 2 * i) 0), hex_val8 (p.getD (24 + 2 * i + 1) 0) with
    | some hi, some lo =>
      match d4Bytes p (i + 1) n with
      | some rest => some ((hi * 16 + lo) :: rest)
      | none => none
    | _, _ => none

/-- parse_guid_ascii36: parse 36 bytes xxxxxxxx-xxxx-xxxx-xxxx-xxxxxxxxxxxx
into a GUID (big-endian groups; Data4[0..1] from group 4, Data4[2..7] from
the last 12 hex digits). -/
def parse_guid_ascii36 (p : List Nat) : Option GUID :=
  if valid36 p = false then none
  else
    match parse_u32_hex_n p 0 8 with
    | none => none
    | some d1 =>
      match parse_u16_hex_n p 9 4 with
      | none => none
      | some d2 =>
        match parse_u16_hex_n p 14 4 with
        | none => none
        | some d3 =>
          match parse_u16_hex_n p 19 4 with
          | none => none
          | some d40 =>
            match d4Bytes p 0 6 with
            | none => none
            | some rest =>
              some ⟨d1, d2, d3, [d40 / 256 % 256, d40 % 256] ++ rest⟩

/-- match_guid_ascii_at: braced 38-byte form first ({...}), brace-parse
failure does not fall through; otherwise the bare 36-byte form.  The list
argument is the buffer suffix at the candidate position, so remaining is
its length.  Returns the consumed byte count and the decoded GUID. -/
def match_guid_ascii_at (p : List Nat) : Option (Nat × GUID) :=
  if 38 ≤ p.length ∧ p.getD 0 0 = 123 ∧ p.getD 37 0 = 125 then
    match parse_guid_ascii36 (p.drop 1) with
    | some g => some (38, g)
    | none => none
  else if 36 ≤ p.length then
    (parse_guid_ascii36 p).map fun g => (36, g)
  else none

/-! ### Binary heuristics (quuid.c lines 155-169) -/

/-- Strict binary heuristic: variant bits 10 in byte 8, version nibble of
byte 7 in [1, 5].  The argument is the 16-byte window (buffer suffix). -/
def looks_like_guid_memlayout_rfc4122 (b : List Nat) : Bool :=
  if (b.getD 8 0) &&& 192 ≠ 128 then false
  else if (b.getD 7 0) >>> 4 < 1 ∨ 5 < (b.getD 7 0) >>> 4 then false
  else true

/-- Loose binary heuristic: only the variant-bit check. -/
def looks_like_guid_memlayout_loose (b : List Nat) : Bool :=
  decide ((b.getD 8 0) &&& 192 = 128)

/-- memcpy(&g, b, 16): decode a window as a GUID in memory layout
(little-endian Data1, Data2, Data3; Data4 as the literal bytes 8..15). -/
def guid_from_mem (b : List Nat) : GUID :=
  { Data1 := b.getD 0 0 + 256 * (b.getD 1 0 + 256 * (b.getD 2 0 + 256 * b.getD 3 0)),
    Data2 := b.getD 4 0 + 256 * b.getD 5 0,
    Data3 := b.getD 6 0 + 256 * b.getD 7 0,
    Data4 := [b.getD 8 0, b.getD 9 0, b.getD 10 0, b.getD 11 0,
              b.getD 12 0, b.getD 13 0, b.getD 14 0, b.getD 15 0] }

/-! ### GUID set (quuid.c lines 251-348) -/

/-- GUIDSET: parallel item and occupancy arrays, power-of-two capacity,
element count. -/
structure GUIDSET where
  items : List GUID
  used : List Bool
  cap : Nat
  len : Nat
deriving DecidableEq, Repr

/-- fnv1a64 over a byte list, with the exact constants of quuid.c
(including its nonstandard offset basis 1469598103934665603). -/
def fnv1a64 (p : List Nat) : Nat :=
  p.foldl (fun h b => ((h ^^^ b) * 1099511628211) % 18446744073709551616)
    1469598103934665603

/-- Hash of a GUID: fnv1a64 over its 16 raw memory bytes. -/
def fnvG (g : GUID) : Nat := fnv1a64 (guid_bytes g)

/-- The while (cap < want) cap <<= 1 loop of guidset_init, with fuel. -/
def capLoop (want : Nat) : Nat → Nat → Nat
  | 0, cap => cap
  | fuel + 1, cap => if cap < want then capLoop want fuel (cap * 2) else cap

/-- guidset_init: capacity is the least power of two at or above
max(64, initialCapPow2); both arrays zero-initialized.  (The two HeapAlloc
calls are modelled at the guidset_rehash level by the allocation oracle.) -/
def guidset_init (initialCapPow2 : Nat) : GUIDSET :=
  let want := if initialCapPow2 < 64 then 64 else initialCapPow2
  let cap := capLoop want want 1
  { items := List.replicate cap gdefault, used := List.replicate cap false,
    cap := cap, len := 0 }

/-- The probe loop of guidset_add: from pos, stop at the first free slot
(insert, the Bool is true) or the first slot equal to g (already present,
false); pos advances by (pos + 1) & mask.  Fuel exhaustion (none) models
divergence of the C for(;;), which cannot happen on a table with a free
slot. -/
def addLoop (g : GUID) (items : List GUID) (used : List Bool) (mask : Nat) :
    Nat → Nat → Option (Nat × Bool)
  | _, 0 => none
  | pos, fuel + 1 =>
    if used.getD pos false = false then some (pos, true)
    else if items.getD pos gdefault = g then some (pos, false)
    else addLoop g items used mask ((pos + 1) &&& mask) fuel

/-- The probe loop of guidset_rehash: first free slot only (no equality
check; a rehash re-inserts distinct values). -/
def insLoop (used : List Bool) (mask : Nat) : Nat → Nat → Option Nat
  | _, 0 => none
  | pos, fuel + 1 =>
    if used.getD pos false = false then some pos
    else insLoop used mask ((pos + 1) &&& mask) fuel

/-- Hash-and-probe of guidset_add after any growth: place g in a free slot
(incrementing len) or find it already present.  The Bool result is the C
return value of the probe part. -/
def addProbe (s : GUIDSET) (g : GUID) : Bool × GUIDSET :=
  let mask := s.cap - 1
  match addLoop g s.items s.used mask (fnvG g &&& mask) s.cap with
  | some (pos, true) =>
    (true, { s with
              items := s.items.set pos g
              used := s.used.set pos true
              len := s.len + 1 })
  | some (_, false) => (true, s)
  | none => (false, s)

/-- The occupied values of a table in slot order (what the re-insert loop
of guidset_rehash walks over). -/
def guidset_collect (s : GUIDSET) : List GUID :=
  (List.range s.cap).filterMap fun i =>
    if s.used.getD i false then some (s.items.getD i gdefault) else none

/-- The re-insert loop of guidset_rehash: each value goes to the first
free slot of its probe sequence in the fresh table; ns.len counts
placements. -/
def insertFresh : GUIDSET → List GUID → Option GUIDSET
  | ns, [] => some ns
  | ns, g :: gs =>
    let mask := ns.cap - 1
    match insLoop ns.used mask (fnvG g &&& mask) ns.cap with
    | none => none
    | some pos =>
      insertFresh { ns with
                     items := ns.items.set pos g
                     used := ns.used.set pos true
                     len := ns.len + 1 } gs

/-- guidset_rehash: one allocation-oracle token is consumed; on a false
token the rehash reports failure without touching the original table,
otherwise every occupied value is re-inserted into a fresh table. -/
def guidset_rehash (alloc : List Bool) (s : GUIDSET) (newCap : Nat) :
    Option GUIDSET × List Bool :=
  if alloc.headD true = false then (none, alloc.tail)
  else (insertFresh (guidset_init newCap) (guidset_collect s), alloc.tail)

/-- guidset_add: the load-factor check (len + 1) * 10 >= cap * 7 runs
first; a failed growth returns 0 with the set untouched; otherwise
hash-and-probe.  Returns the C return value, the new set and the remaining
allocation oracle. -/
def guidset_add (alloc : List Bool) (s : GUIDSET) (g : GUID) :
    Bool × GUIDSET × List Bool :=
  if (s.len + 1) * 10 ≥ s.cap * 7 then
    match guidset_rehash alloc s (s.cap * 2) with
    | (none, alloc2) => (false, s, alloc2)
    | (some s2, alloc2) =>
      let r := addProbe s2 g
      (r.1, r.2, alloc2)
  else
    let r := addProbe s g
    (r.1, r.2, alloc)

/-- Membership as observed through guidset_foreach: some occupied slot
holds g. -/
def guidset_mem (s : GUIDSET) (g : GUID) : Bool :=
  (List.range s.cap).any fun i =>
    s.used.getD i false && decide (s.items.getD i gdefault = g)

/-- Folding guidset_add (with every allocation succeeding) over a list. -/
def insertAll (s : GUIDSET) (gs : List GUID) : GUIDSET :=
  gs.foldl (fun s g => (guidset_add [] s g).2.1) s

/-! ### Scanning (quuid.c lines 709-831) -/

/-- SCANOPTS of quuid.c. -/
structure SCANOPTS where
  with_registry : Bool
  binary_scan : Bool
  binary_loose : Bool
  locate : Bool
  one_line : Bool
deriving Repr

/-- SCANSTATS of quuid.c. -/
structure SCANSTATS where
  files_scanned : Nat
  bytes_scanned : Nat
  ascii_hits : Nat
  bin_hits : Nat
deriving DecidableEq, Repr

/-- Kind tag of a locate_hit line. -/
inductive HitKind where
  | ascii
  | bin
  | binLoose
deriving DecidableEq, Repr

/-- One locate_hit emission: absolute file offset, consumed bytes, kind
and decoded GUID. -/
structure HitRec where
  off : Nat
  consumed : Nat
  kind : HitKind
  guid : GUID
deriving DecidableEq, Repr

/-- The state threaded through a scan: the dedup set, the counters, the
emitted locate records, and the remaining allocation oracle. -/
structure ScanSt where
  set : GUIDSET
  stats : SCANSTATS
  hits : List HitRec
  alloc : List Bool
deriving Repr

/-- The statement guidset_add(set, &g); of the scan loops: the return
value of guidset_add is discarded. -/
def addIgnored (st : ScanSt) (g : GUID) : ScanSt :=
  let r := guidset_add st.alloc st.set g
  { st with set := r.2.1, alloc := r.2.2 }

/-- The byte test of the ASCII scan loop: a match attempt starts only at
a brace or hex digit. -/
def candidateStart (c : Nat) : Bool :=
  decide (c = 123 ∨ (48 ≤ c ∧ c ≤ 57) ∨ (97 ≤ c ∧ c ≤ 102) ∨ (65 ≤ c ∧ c ≤ 70))

/-- The per-match effect of the ASCII scan loop: guidset_add with its
return value ignored, ascii_hits incremented, and a locate record emitted
when requested. -/
def asciiHitSt (locate : Bool) (base i consumed : Nat) (g : GUID) (st : ScanSt) : ScanSt :=
  let st1 := addIgnored st g
  let st2 := { st1 with stats :=
    { st1.stats with ascii_hits := st1.stats.ascii_hits + 1 } }
  if locate then
    { st2 with hits := st2.hits ++ [⟨base + i, consumed, HitKind.ascii, g⟩] }
  else st2

/-- The ASCII scan loop over one buffer: for i while i + 36 <= avail; on a
match, add to the set, count an ascii hit, emit a locate record when
requested, and advance i by the consumed length; otherwise advance by 1.
Structural fuel; callers pass buf.length + 1, an iteration bound. -/
def asciiLoop (locate : Bool) (buf : List Nat) (base : Nat) :
    Nat → Nat → ScanSt → ScanSt
  | 0, _, st => st
  | fuel + 1, i, st =>
    if i + 36 ≤ buf.length then
      if candidateStart (buf.getD i 0) then
        match match_guid_ascii_at (buf.drop i) with
        | some (consumed, g) =>
          asciiLoop locate buf base fuel (i + (consumed - 1) + 1)
            (asciiHitSt locate base i consumed g st)
        | none => asciiLoop locate buf base fuel (i + 1) st
      else asciiLoop locate buf base fuel (i + 1) st
    else st

/-- The per-window effect of the binary scan loop: guidset_add with its
return value ignored, bin_hits incremented, and a locate record emitted
when requested. -/
def binHitSt (loose locate : Bool) (base i : Nat) (g : GUID) (st : ScanSt) : ScanSt :=
  let st1 := addIgnored st g
  let st2 := { st1 with stats :=
    { st1.stats with bin_hits := st1.stats.bin_hits + 1 } }
  if locate then
    { st2 with hits := st2.hits ++
      [⟨base + i, 16, if loose then HitKind.binLoose else HitKind.bin, g⟩] }
  else st2

/-- The binary scan loop over one buffer: every i with i + 16 <= avail is
a window start; an accepted window adds its decoded GUID, counts a binary
hit and emits a locate record when requested; i always advances by 1. -/
def binLoop (loose locate : Bool) (buf : List Nat) (base : Nat) :
    Nat → Nat → ScanSt → ScanSt
  | 0, _, st => st
  | fuel + 1, i, st =>
    if i + 16 ≤ buf.length then
      if (if loose then looks_like_guid_memlayout_loose (buf.drop i)
          else looks_like_guid_memlayout_rfc4122 (buf.drop i)) then
        binLoop loose locate buf base fuel (i + 1)
          (binHitSt loose locate base i (guid_from_mem (buf.drop i)) st)
      else binLoop loose locate buf base fuel (i + 1) st
    else st

/-- Chunk size of scan_stream_for_guids: 4 MiB. -/
def CHUNK : Nat := 4 * 1024 * 1024

/-- Carried-over overlap of scan_stream_for_guids: 64 bytes. -/
def OVERLAP : Nat := 64

/-- The read-process-carry loop of scan_stream_for_guids.  j is the read
index; failAt = some j makes the j-th ReadFile call fail (break, keeping
partial results).  A read delivers min(CHUNK, remaining) bytes; zero bytes
ends the loop.  After processing, the trailing min(avail, OVERLAP) bytes
are carried to the front and the base offset advances by the rest. -/
def scanChunks (opt : SCANOPTS) (failAt : Option Nat) :
    Nat → Nat → List Nat → List Nat → Nat → ScanSt → ScanSt
  | 0, _, _, _, _, st => st
  | fuel + 1, j, carry, input, base, st =>
    if failAt = some j then st
    else
      let got := input.take CHUNK
      if got.length = 0 then st
      else
        let buf := carry ++ got
        let st1 := asciiLoop opt.locate buf base (buf.length + 1) 0 st
        let st2 := if opt.binary_scan then
          binLoop opt.binary_loose opt.locate buf base (buf.length + 1) 0 st1
          else st1
        let keep := min buf.length OVERLAP
        scanChunks opt failAt fuel (j + 1) (buf.drop (buf.length - keep))
          (input.drop CHUNK) (base + (buf.length - keep)) st2

/-- scan_stream_for_guids over one file.  ok = false models a failed
CreateFileW or GetFileSizeEx (return 0, nothing counted); otherwise
files_scanned and bytes_scanned are bumped and the chunk loop runs, and
the function returns 1 even when a read fails mid-stream. -/
def scan_stream_for_guids (opt : SCANOPTS) (ok : Bool) (failAt : Option Nat)
    (file : List Nat) (st : ScanSt) : Bool × ScanSt :=
  if ok = false then (false, st)
  else
    let st1 := { st with stats :=
      { st.stats with
         files_scanned := st.stats.files_scanned + 1
         bytes_scanned := st.stats.bytes_scanned + file.length } }
    (true, scanChunks opt failAt (file.length + 1) 0 [] file 0 st1)

/-! ### Tree walk (quuid.c lines 833-869) -/

/-- Abstract filesystem node.  For a file, ok = false models a failed
GetFileAttributesW / CreateFileW / GetFileSizeEx on it and failAt a failed
ReadFile; for a directory, ok = false models a failed GetFileAttributesW
or FindFirstFileW.  reparse is the FILE_ATTRIBUTE_REPARSE_POINT bit seen
by the enumerating parent. -/
inductive FSNode where
  | file (reparse : Bool) (ok : Bool) (failAt : Option Nat) (data : List Nat) : FSNode
  | dir (reparse : Bool) (ok : Bool) (children : List FSNode) : FSNode

/-- The reparse attribute of a directory entry. -/
def FSNode.isReparse : FSNode → Bool
  | .file rp _ _ _ => rp
  | .dir rp _ _ => rp

mutual
/-- scan_path_recursive: a file is streamed (its scan result value is
ignored); a directory is enumerated and each child visited, unless its
attribute query or enumeration failed. -/
def scan_path_recursive (opt : SCANOPTS) : FSNode → ScanSt → ScanSt
  | .file _ ok failAt data, st => (scan_stream_for_guids opt ok failAt data st).2
  | .dir _ ok children, st => if ok then scanChildren opt children st else st

/-- The FindFirstFileW / FindNextFileW loop: reparse-point children are
skipped entirely; every other child is visited in order. -/
def scanChildren (opt : SCANOPTS) : List FSNode → ScanSt → ScanSt
  | [], st => st
  | c :: cs, st =>
    scanChildren opt cs (if c.isReparse then st else scan_path_recursive opt c st)
end

/-- The entry whose failure makes the walk skip it without any state
contribution: a reparse point, or a node whose attribute, open or
enumeration step failed. -/
def skippedEntry : FSNode → Bool
  | .file rp ok _ _ => rp || !ok
  | .dir rp ok _ => rp || !ok

/-- The scan state cmd_scan starts from: a 256-slot set, zero counters, no
emitted records, and an allocation oracle with every allocation
succeeding. -/
def scanInit : ScanSt :=
  { set := guidset_init 256,
    stats := ⟨0, 0, 0, 0⟩, hits := [], alloc := [] }

/-! ### Spec-side definitions (for refinement statements only) -/

/-- Modelled from the spec: the candidate window starts of binary mode,
"every byte offset is tried as a window start" with at least 16 bytes
remaining. -/
def binaryWindowStarts (buf : List Nat) : List Nat :=
  List.range (buf.length + 1 - 16)

/-- Modelled from the spec: one binary detection per accepted window, in
order — each produces its own set insertion, hit count and record. -/
def binFold (loose locate : Bool) (buf : List Nat) (base : Nat)
    (st : ScanSt) (idxs : List Nat) : ScanSt :=
  idxs.foldl (fun st i => binHitSt loose locate base i (guid_from_mem (buf.drop i)) st) st

/-- The window-acceptance test of binary mode at offset i of the buffer. -/
def binAccepts (loose : Bool) (buf : List Nat) (i : Nat) : Bool :=
  if loose then looks_like_guid_memlayout_loose (buf.drop i)
  else looks_like_guid_memlayout_rfc4122 (buf.drop i)

/-! ### Concrete data used by the closed theorems -/

/-- The 36 ASCII bytes of 6F9619FF-8B86-D011-B42D-00C04FC964FF. -/
def G36 : List Nat :=
  [54, 70, 57, 54, 49, 57, 70, 70, 45, 56, 66, 56, 54, 45, 68, 48, 49, 49,
   45, 66, 52, 50, 68, 45, 48, 48, 67, 48, 52, 70, 67, 57, 54, 52, 70, 70]

/-- The decoded value of G36. -/
def gG : GUID := ⟨0x6F9619FF, 0x8B86, 0xD011, [0xB4, 0x2D, 0x00, 0xC0, 0x4F, 0xC9, 0x64, 0xFF]⟩

/-- The bytes of: Hello {6F9619FF-8B86-D011-B42D-00C04FC964FF} world. -/
def c7file : List Nat :=
  [72, 101, 108, 108, 111, 32, 123, 54, 70, 57, 54, 49, 57, 70, 70, 45, 56,
   66, 56, 54, 45, 68, 48, 49, 49, 45, 66, 52, 50, 68, 45, 48, 48, 67, 48,
   52, 70, 67, 57, 54, 52, 70, 70, 125, 32, 119, 111, 114, 108, 100]

/-- Scan options: plain text scan with per-hit locate output. -/
def optLocate : SCANOPTS := ⟨false, false, false, true, false⟩

/-- 44 distinct GUIDs; inserting them into a 64-slot table reaches the
growth threshold: (44 + 1) * 10 = 450 >= 64 * 7 = 448. -/
def gs44 : List GUID :=
  (List.range 44).map fun n => ⟨n + 1, 0, 0, List.replicate 8 0⟩

/-- A 64-capacity set filled to the growth threshold. -/
def s44 : GUIDSET := insertAll (guidset_init 64) gs44

/-- The bytes of 00000000-0000-0000-0000-000000000001. -/
def t1 : List Nat :=
  [48, 48, 48, 48, 48, 48, 48, 48, 45, 48, 48, 48, 48, 45, 48, 48, 48, 48,
   45, 48, 48, 48, 48, 45, 48, 48, 48, 48, 48, 48, 48, 48, 48, 48, 48, 49]

/-- The bytes of 00000000-0000-0000-0000-000000000002. -/
def t2 : List Nat :=
  [48, 48, 48, 48, 48, 48, 48, 48, 45, 48, 48, 48, 48, 45, 48, 48, 48, 48,
   45, 48, 48, 48, 48, 45, 48, 48, 48, 48, 48, 48, 48, 48, 48, 48, 48, 50]

/-- The decoded value of t1. -/
def gT1 : GUID := ⟨0, 0, 0, [0, 0, 0, 0, 0, 0, 0, 1]⟩

/-- The decoded value of t2. -/
def gT2 : GUID := ⟨0, 0, 0, [0, 0, 0, 0, 0, 0, 0, 2]⟩

/-- A file holding the two textual identifiers t1 and t2, space-separated. -/
def c1file : List Nat := t1 ++ [32] ++ t2

/-- A scan state over the threshold-filled set whose next allocation
fails. -/
def c1st : ScanSt := { set := s44, stats := ⟨0, 0, 0, 0⟩, hits := [], alloc := [false] }

/-- A file one byte longer than the chunk size whose textual identifier
occupies the final 36 bytes of the first chunk. -/
def c2file : List Nat := List.replicate (CHUNK - 36) 0 ++ G36 ++ [0]

/-! ### Invariants of the GUID set (proof-side predicates) -/

/-- Membership through the slots: some occupied slot holds g (the Prop
form of guidset_mem). -/
def MemT (s : GUIDSET) (g : GUID) : Prop :=
  ∃ j, j < s.cap ∧ s.used.getD j false = true ∧ s.items.getD j gdefault = g

/-- The home index of a value: its hash reduced by the table mask. -/
def homeIdx (cap : Nat) (g : GUID) : Nat := fnvG g % cap

/-- Linear-probing integrity of slot j: every slot from the home of the
stored value up to (excluding) j along the wrap-around probe sequence is
occupied, so a probe for that value cannot stop early at a free slot. -/
def probePath (s : GUIDSET) (j : Nat) : Prop :=
  ∀ t, t < (j + s.cap - homeIdx s.cap (s.items.getD j gdefault)) % s.cap →
    s.used.getD ((homeIdx s.cap (s.items.getD j gdefault) + t) % s.cap) false = true

/-- The common insertion effect of the two probe loops: store g in slot
pos, mark it occupied, bump len. -/
def placeSlot (s : GUIDSET) (g : GUID) (pos : Nat) : GUIDSET :=
  { s with
     items := s.items.set pos g
     used := s.used.set pos true
     len := s.len + 1 }

/-- Well-formedness of a GUIDSET as maintained by guidset_init,
guidset_add and guidset_rehash. -/
structure WF (s : GUIDSET) : Prop where
  items_len : s.items.length = s.cap
  used_len : s.used.length = s.cap
  pow : ∃ k, s.cap = 2 ^ k
  min64 : 64 ≤ s.cap
  count : s.len = s.used.count true
  lt : s.len < s.cap
  path : ∀ j, j < s.cap → s.used.getD j false = true → probePath s j

/-! ## Helper lemmas -/

theorem insLoop_succ (used : List Bool) (mask pos fuel : Nat) :
    insLoop used mask pos (fuel + 1) =
      if used.getD pos false = false then some pos
      else insLoop used mask ((pos + 1) &&& mask) fuel := rfl

theorem addLoop_succ (g : GUID) (items : List GUID) (used : List Bool)
    (mask pos fuel : Nat) :
    addLoop g items used mask pos (fuel + 1) =
      if used.getD pos false = false then some (pos, true)
      else if items.getD pos gdefault = g then some (pos, false)
      else addLoop g items used mask ((pos + 1) &&& mask) fuel := rfl


theorem getD_drop (l : List α) (n m : Nat) (d : α) :
    (l.drop n).getD m d = l.getD (n + m) d := by
  simp [List.getD_eq_getD_get?, List.getElem?_drop]

theorem getD_replicate_lt (a d : α) (n i : Nat) (h : i < n) :
    (List.replicate n a).getD i d = a := by
  rw [List.getD_eq_getElem _ _ (by simpa using h)]
  simp

theorem getD_append_lt (l r : List α) (d : α) (i : Nat) (h : i < l.length) :
    (l ++ r).getD i d = l.getD i d :=
  List.getD_append l r d i h

theorem getD_set_eq (l : List α) (p : Nat) (a d : α) (hp : p < l.length) :
    (l.set p a).getD p d = a := by
  simp [List.getD_eq_getD_get?, List.get?_set_eq_of_lt, hp]

theorem getD_set_ne (l : List α) (p q : Nat) (a d : α) (h : p ≠ q) :
    (l.set p a).getD q d = l.getD q d := by
  simp [List.getD_eq_getD_get?, List.get?_set_ne, h]

theorem getD_set_true_mono (l : List Bool) (p q : Nat) (h : l.getD q false = true) :
    (l.set p true).getD q false = true := by
  have hq : q < l.length := by
    by_contra hq
    rw [List.getD_eq_default _ _ (le_of_not_lt hq)] at h
    exact Bool.false_ne_true h
  rcases eq_or_ne p q with rfl | hne
  · exact getD_set_eq l p true false hq
  · rw [getD_set_ne l p q true false hne]; exact h

theorem count_true_set (l : List Bool) :
    ∀ p, p < l.length → l.getD p false = false →
    (l.set p true).count true = l.count true + 1 := by
  induction l with
  | nil => intro p hp _; simp at hp
  | cons b tl ih =>
    intro p hp hfree
    cases p with
    | zero =>
      have hb : b = false := hfree
      subst hb
      simp [List.count_cons]
    | succ p =>
      have h1 : (b :: tl).set (p + 1) true = b :: tl.set p true := rfl
      rw [h1]
      have h2 := ih p (by simpa using hp) (by simpa using hfree)
      simp [List.count_cons, h2]
      omega

theorem exists_free_slot (l : List Bool) (h : l.count true < l.length) :
    ∃ j, j < l.length ∧ l.getD j false = false := by
  induction l with
  | nil => simp at h
  | cons b tl ih =>
    cases b with
    | false => exact ⟨0, by simp, rfl⟩
    | true =>
      have h2 : tl.count true < tl.length := by
        have := h
        simp [List.count_cons] at this
        simpa using this
      obtain ⟨j, hj, hf⟩ := ih h2
      exact ⟨j + 1, by simpa using hj, by simpa using hf⟩

theorem getD_replicate_false (n j : Nat) : (List.replicate n false).getD j false = false := by
  rcases lt_or_le j n with h | h
  · exact getD_replicate_lt false false n j h
  · exact List.getD_eq_default _ _ (by simpa using h)

/-! ### Modular probe arithmetic -/

theorem and_mask (cap n : Nat) (h : ∃ k, cap = 2 ^ k) : n &&& (cap - 1) = n % cap := by
  obtain ⟨k, rfl⟩ := h
  exact Nat.and_pow_two_sub_one_eq_mod n k

theorem cap_pos (cap : Nat) (h : ∃ k, cap = 2 ^ k) : 0 < cap := by
  obtain ⟨k, rfl⟩ := h
  exact pow_pos (by norm_num) k

theorem probe_index_inv (cap start j : Nat) (h0 : 0 < cap) (hs : start < cap)
    (hj : j < cap) : (start + (j + cap - start) % cap) % cap = j := by
  rcases le_or_lt start j with hle | hlt
  · have e1 : j + cap - start = (j - start) + cap := by omega
    rw [e1, Nat.add_mod_right, Nat.mod_eq_of_lt (show j - start < cap by omega)]
    have e3 : start + (j - start) = j := by omega
    rw [e3, Nat.mod_eq_of_lt hj]
  · have e1 : (j + cap - start) % cap = j + cap - start :=
      Nat.mod_eq_of_lt (by omega)
    rw [e1]
    have e2 : start + (j + cap - start) = j + cap := by omega
    rw [e2, Nat.add_mod_right]
    exact Nat.mod_eq_of_lt hj

theorem dist_round (cap start d : Nat) (h0 : 0 < cap) (hs : start < cap)
    (hd : d < cap) : ((start + d) % cap + cap - start) % cap = d := by
  rcases lt_or_le (start + d) cap with hlt | hge
  · rw [Nat.mod_eq_of_lt hlt]
    have e : start + d + cap - start = d + cap := by omega
    rw [e, Nat.add_mod_right]
    exact Nat.mod_eq_of_lt hd
  · have e0 : (start + d) % cap = start + d - cap := by
      rw [Nat.mod_eq_sub_mod hge, Nat.mod_eq_of_lt (by omega)]
    rw [e0]
    have e : start + d - cap + cap - start = d := by omega
    rw [e]
    exact Nat.mod_eq_of_lt hd

theorem probe_reaches_free (used : List Bool) (cap start : Nat) (h0 : 0 < cap)
    (hs : start < cap) (hfree : ∃ j, j < cap ∧ used.getD j false = false) :
    ∃ t, t < cap ∧ used.getD ((start + t) % cap) false = false := by
  obtain ⟨j, hj, hf⟩ := hfree
  refine ⟨(j + cap - start) % cap, Nat.mod_lt _ h0, ?_⟩
  rw [probe_index_inv cap start j h0 hs hj]
  exact hf

/-! ### Probe loop correctness -/

theorem insLoop_finds (used : List Bool) (cap : Nat) (hpow : ∃ k, cap = 2 ^ k) :
    ∀ fuel start, start < cap →
    (∃ t, t < fuel ∧ used.getD ((start + t) % cap) false = false) →
    ∃ d, d < fuel ∧ (∀ t, t < d → used.getD ((start + t) % cap) false = true) ∧
      used.getD ((start + d) % cap) false = false ∧
      insLoop used (cap - 1) start fuel = some ((start + d) % cap) := by
  have hc0 : 0 < cap := cap_pos cap hpow
  intro fuel
  induction fuel with
  | zero =>
    rintro start _ ⟨t, ht, _⟩
    omega
  | succ fuel ih =>
    rintro start hstart ⟨t, ht, hfree⟩
    have estart : (start + 0) % cap = start := by
      rw [Nat.add_zero, Nat.mod_eq_of_lt hstart]
    by_cases hu : used.getD start false = false
    · refine ⟨0, by omega, fun t ht => absurd ht (Nat.not_lt_zero t), ?_, ?_⟩
      · rw [estart]; exact hu
      · rw [estart, insLoop_succ, if_pos hu]
    · have hu2 : used.getD start false = true := by
        cases hgd : used.getD start false
        · exact absurd hgd hu
        · rfl
      have ht0 : t ≠ 0 := by
        intro h0
        subst h0
        rw [estart] at hfree
        rw [hfree] at hu2
        exact Bool.false_ne_true hu2
      obtain ⟨t2, rfl⟩ : ∃ t2, t = t2 + 1 := ⟨t - 1, by omega⟩
      have hs2 : (start + 1) % cap < cap := Nat.mod_lt _ hc0
      have hidx : ∀ u : Nat, ((start + 1) % cap + u) % cap = (start + (u + 1)) % cap := by
        intro u
        rw [Nat.mod_add_mod]
        have e : start + 1 + u = start + (u + 1) := by omega
        rw [e]
      obtain ⟨d2, hd2, hpre, hfr, heq⟩ := ih ((start + 1) % cap) hs2
        ⟨t2, by omega, by rw [hidx t2]; exact hfree⟩
      refine ⟨d2 + 1, by omega, ?_, ?_, ?_⟩
      · intro u hu3
        cases u with
        | zero => rw [estart]; exact hu2
        | succ u =>
          rw [← hidx u]
          exact hpre u (by omega)
      · rw [← hidx d2]; exact hfr
      · have estep : insLoop used (cap - 1) start (fuel + 1) =
            insLoop used (cap - 1) ((start + 1) % cap) fuel := by
          rw [insLoop_succ, if_neg hu, and_mask cap (start + 1) hpow]
        rw [estep, heq, hidx d2]

theorem addLoop_finds (g : GUID) (items : List GUID) (used : List Bool) (cap : Nat)
    (hpow : ∃ k, cap = 2 ^ k) :
    ∀ fuel start, start < cap →
    (∃ t, t < fuel ∧ (used.getD ((start + t) % cap) false = false ∨
      items.getD ((start + t) % cap) gdefault = g)) →
    ∃ d, d < fuel ∧
      (∀ t, t < d → used.getD ((start + t) % cap) false = true ∧
        items.getD ((start + t) % cap) gdefault ≠ g) ∧
      ((used.getD ((start + d) % cap) false = false ∧
        addLoop g items used (cap - 1) start fuel = some ((start + d) % cap, true)) ∨
       (used.getD ((start + d) % cap) false = true ∧
        items.getD ((start + d) % cap) gdefault = g ∧
        addLoop g items used (cap - 1) start fuel = some ((start + d) % cap, false))) := by
  have hc0 : 0 < cap := cap_pos cap hpow
  intro fuel
  induction fuel with
  | zero =>
    rintro start _ ⟨t, ht, _⟩
    omega
  | succ fuel ih =>
    rintro start hstart ⟨t, ht, hstop⟩
    have estart : (start + 0) % cap = start := by
      rw [Nat.add_zero, Nat.mod_eq_of_lt hstart]
    by_cases hu : used.getD start false = false
    · refine ⟨0, by omega, fun t ht => absurd ht (Nat.not_lt_zero t), Or.inl ⟨?_, ?_⟩⟩
      · rw [estart]; exact hu
      · rw [estart, addLoop_succ, if_pos hu]
    · have hu2 : used.getD start false = true := by
        cases hgd : used.getD start false
        · exact absurd hgd hu
        · rfl
      by_cases hg : items.getD start gdefault = g
      · refine ⟨0, by omega, fun t ht => absurd ht (Nat.not_lt_zero t), Or.inr ⟨?_, ?_, ?_⟩⟩
        · rw [estart]; exact hu2
        · rw [estart]; exact hg
        · rw [estart, addLoop_succ, if_neg hu, if_pos hg]
      · have ht0 : t ≠ 0 := by
          intro h0
          subst h0
          rw [estart] at hstop
          rcases hstop with hf | he
          · rw [hf] at hu2; exact Bool.false_ne_true hu2
          · exact hg he
        obtain ⟨t2, rfl⟩ : ∃ t2, t = t2 + 1 := ⟨t - 1, by omega⟩
        have hs2 : (start + 1) % cap < cap := Nat.mod_lt _ hc0
        have hidx : ∀ u : Nat, ((start + 1) % cap + u) % cap = (start + (u + 1)) % cap := by
          intro u
          rw [Nat.mod_add_mod]
          have e : start + 1 + u = start + (u + 1) := by omega
          rw [e]
        obtain ⟨d2, hd2, hpre, hres⟩ := ih ((start + 1) % cap) hs2
          ⟨t2, by omega, by rw [hidx t2]; exact hstop⟩
        refine ⟨d2 + 1, by omega, ?_, ?_⟩
        · intro u hu3
          cases u with
          | zero =>
            rw [estart]
            exact ⟨hu2, hg⟩
          | succ u =>
            have := hpre u (by omega)
            rw [← hidx u]
            exact this
        · have estep : addLoop g items used (cap - 1) start (fuel + 1) =
              addLoop g items used (cap - 1) ((start + 1) % cap) fuel := by
            rw [addLoop_succ, if_neg hu, if_neg hg, and_mask cap (start + 1) hpow]
          rcases hres with ⟨hf, heq⟩ | ⟨hus, hit, heq⟩
          · exact Or.inl ⟨by rw [← hidx d2]; exact hf, by rw [estep, heq, hidx d2]⟩
          · exact Or.inr ⟨by rw [← hidx d2]; exact hus, by rw [← hidx d2]; exact hit,
              by rw [estep, heq, hidx d2]⟩

/-! ### Placement and addProbe correctness -/

theorem placeSlot_props (s : GUIDSET) (g : GUID) (pos d : Nat)
    (hil : s.items.length = s.cap) (hul : s.used.length = s.cap)
    (hpow : ∃ k, s.cap = 2 ^ k)
    (hpos : pos = (homeIdx s.cap g + d) % s.cap)
    (hd : d < s.cap)
    (hfree : s.used.getD pos false = false)
    (hpre : ∀ t, t < d → s.used.getD ((homeIdx s.cap g + t) % s.cap) false = true)
    (hpath : ∀ j, j < s.cap → s.used.getD j false = true → probePath s j) :
    (placeSlot s g pos).cap = s.cap ∧
    (placeSlot s g pos).items.length = s.cap ∧
    (placeSlot s g pos).used.length = s.cap ∧
    (placeSlot s g pos).len = s.len + 1 ∧
    (placeSlot s g pos).used.count true = s.used.count true + 1 ∧
    (∀ j, j < s.cap → (placeSlot s g pos).used.getD j false = true →
      probePath (placeSlot s g pos) j) ∧
    (∀ x, MemT (placeSlot s g pos) x ↔ x = g ∨ MemT s x) := by
  have hc0 : 0 < s.cap := cap_pos s.cap hpow
  have hhome : homeIdx s.cap g < s.cap := Nat.mod_lt _ hc0
  have hposlt : pos < s.cap := by rw [hpos]; exact Nat.mod_lt _ hc0
  refine ⟨rfl, ?_, ?_, rfl, ?_, ?_, ?_⟩
  · simp [placeSlot, hil]
  · simp [placeSlot, hul]
  · exact count_true_set s.used pos (by omega) hfree
  · intro j hj hju
    by_cases hjp : j = pos
    · subst hjp
      intro t ht
      simp only [placeSlot] at ht ⊢
      rw [getD_set_eq s.items j g gdefault (by omega)] at ht ⊢
      have hdist : (j + s.cap - homeIdx s.cap g) % s.cap = d := by
        rw [hpos]
        exact dist_round s.cap (homeIdx s.cap g) d hc0 hhome hd
      rw [hdist] at ht
      exact getD_set_true_mono s.used j _ (hpre t ht)
    · have hju2 : s.used.getD j false = true := by
        have : (placeSlot s g pos).used.getD j false = s.used.getD j false := by
          simp only [placeSlot]
          exact getD_set_ne s.used pos j true false (fun h => hjp h.symm)
        rw [this] at hju
        exact hju
      have hitem : (placeSlot s g pos).items.getD j gdefault = s.items.getD j gdefault := by
        simp only [placeSlot]
        exact getD_set_ne s.items pos j g gdefault (fun h => hjp h.symm)
      have hp := hpath j hj hju2
      intro t ht
      have hcap : (placeSlot s g pos).cap = s.cap := rfl
      rw [hcap, hitem] at ht
      rw [hcap, hitem]
      simp only [placeSlot]
      exact getD_set_true_mono s.used pos _ (hp t ht)
  · intro x
    constructor
    · rintro ⟨j, hj, hju, hji⟩
      have hcap : (placeSlot s g pos).cap = s.cap := rfl
      rw [hcap] at hj
      by_cases hjp : j = pos
      · subst hjp
        left
        have : (placeSlot s g j).items.getD j gdefault = g := by
          simp only [placeSlot]
          exact getD_set_eq s.items j g gdefault (by omega)
        rw [this] at hji
        exact hji.symm
      · right
        refine ⟨j, hj, ?_, ?_⟩
        · have : (placeSlot s g pos).used.getD j false = s.used.getD j false := by
            simp only [placeSlot]
            exact getD_set_ne s.used pos j true false (fun h => hjp h.symm)
          rw [this] at hju
          exact hju
        · have : (placeSlot s g pos).items.getD j gdefault = s.items.getD j gdefault := by
            simp only [placeSlot]
            exact getD_set_ne s.items pos j g gdefault (fun h => hjp h.symm)
          rw [this] at hji
          exact hji
    · rintro (rfl | ⟨j, hj, hju, hji⟩)
      · refine ⟨pos, hposlt, ?_, ?_⟩
        · simp only [placeSlot]
          exact getD_set_eq s.used pos true false (by omega)
        · simp only [placeSlot]
          exact getD_set_eq s.items pos x gdefault (by omega)
      · have hjp : j ≠ pos := by
          intro h
          rw [h] at hju
          rw [hju] at hfree
          exact absurd hfree (by decide)
        refine ⟨j, hj, ?_, ?_⟩
        · simp only [placeSlot]
          exact getD_set_true_mono s.used pos j hju
        · have : (placeSlot s g pos).items.getD j gdefault = s.items.getD j gdefault := by
            simp only [placeSlot]
            exact getD_set_ne s.items pos j g gdefault (fun h => hjp h.symm)
          rw [this]
          exact hji

theorem addProbe_insert (s : GUIDSET) (g : GUID)
    (hil : s.items.length = s.cap) (hul : s.used.length = s.cap)
    (hpow : ∃ k, s.cap = 2 ^ k)
    (hfree : ∃ j, j < s.cap ∧ s.used.getD j false = false)
    (hnm : ¬ MemT s g) :
    ∃ pos d, pos = (homeIdx s.cap g + d) % s.cap ∧ d < s.cap ∧ pos < s.cap ∧
      s.used.getD pos false = false ∧
      (∀ t, t < d → s.used.getD ((homeIdx s.cap g + t) % s.cap) false = true) ∧
      addProbe s g = (true, placeSlot s g pos) := by
  have hc0 : 0 < s.cap := cap_pos s.cap hpow
  have hstart : homeIdx s.cap g < s.cap := Nat.mod_lt _ hc0
  obtain ⟨t, htc, hf⟩ := probe_reaches_free s.used s.cap (homeIdx s.cap g) hc0 hstart hfree
  obtain ⟨d, hdlt, hpre, hres⟩ := addLoop_finds g s.items s.used s.cap hpow s.cap
    (homeIdx s.cap g) hstart ⟨t, htc, Or.inl hf⟩
  rcases hres with ⟨hfr, heq⟩ | ⟨hus, hit, _⟩
  · refine ⟨(homeIdx s.cap g + d) % s.cap, d, rfl, hdlt, Nat.mod_lt _ hc0, hfr,
      (fun u hu => (hpre u hu).1), ?_⟩
    have hmask : fnvG g &&& (s.cap - 1) = homeIdx s.cap g := by
      rw [and_mask s.cap (fnvG g) hpow]; rfl
    simp only [addProbe]
    rw [hmask, heq]
    rfl
  · exact absurd ⟨(homeIdx s.cap g + d) % s.cap, Nat.mod_lt _ hc0, hus, hit⟩ hnm

theorem addProbe_dup (s : GUIDSET) (g : GUID)
    (hil : s.items.length = s.cap) (hul : s.used.length = s.cap)
    (hpow : ∃ k, s.cap = 2 ^ k)
    (hmem : MemT s g)
    (hpath : ∀ j, j < s.cap → s.used.getD j false = true → probePath s j) :
    addProbe s g = (true, s) := by
  have hc0 : 0 < s.cap := cap_pos s.cap hpow
  have hstart : homeIdx s.cap g < s.cap := Nat.mod_lt _ hc0
  obtain ⟨jg, hjg, hjgu, hjgi⟩ := hmem
  have hdistlt : (jg + s.cap - homeIdx s.cap g) % s.cap < s.cap := Nat.mod_lt _ hc0
  have hinv : (homeIdx s.cap g + (jg + s.cap - homeIdx s.cap g) % s.cap) % s.cap = jg :=
    probe_index_inv s.cap (homeIdx s.cap g) jg hc0 hstart hjg
  obtain ⟨d, hdlt, hpre, hres⟩ := addLoop_finds g s.items s.used s.cap hpow s.cap
    (homeIdx s.cap g) hstart
    ⟨(jg + s.cap - homeIdx s.cap g) % s.cap, by omega,
      Or.inr (by rw [hinv]; exact hjgi)⟩
  rcases hres with ⟨hfr, _⟩ | ⟨_, _, heq⟩
  · exfalso
    rcases lt_trichotomy d ((jg + s.cap - homeIdx s.cap g) % s.cap) with hlt | heqd | hgt
    · have hp := hpath jg hjg hjgu
      unfold probePath at hp
      rw [hjgi] at hp
      have := hp d hlt
      rw [this] at hfr
      exact absurd hfr (by decide)
    · rw [heqd, hinv] at hfr
      rw [hjgu] at hfr
      exact absurd hfr (by decide)
    · have := (hpre ((jg + s.cap - homeIdx s.cap g) % s.cap) hgt).2
      rw [hinv] at this
      exact this hjgi
  · have hmask : fnvG g &&& (s.cap - 1) = homeIdx s.cap g := by
      rw [and_mask s.cap (fnvG g) hpow]; rfl
    simp only [addProbe]
    rw [hmask, heq]

/-! ### Rehash correctness -/

theorem filterMap_if_length (L : List Nat) (p : Nat → Bool) (f : Nat → GUID) :
    (L.filterMap fun i => if p i then some (f i) else none).length =
      (L.filter p).length := by
  induction L with
  | nil => rfl
  | cons a L ih =>
    by_cases hp : p a <;> simp [hp, ih]

theorem filter_getD_count (l : List Bool) :
    ((List.range l.length).filter fun i => l.getD i false).length = l.count true := by
  induction l with
  | nil => rfl
  | cons b tl ih =>
    have hcomp : ((fun i => (b :: tl).getD i false) ∘ Nat.succ) =
        fun i => tl.getD i false := by
      funext i
      rfl
    rw [List.length_cons, List.range_succ_eq_map, List.filter_cons]
    cases b with
    | true =>
      rw [List.filter_map, hcomp]
      simp [List.count_cons]
      simpa using ih
    | false =>
      rw [List.filter_map, hcomp]
      simp [List.count_cons]
      simpa using ih

theorem collect_length (s : GUIDSET) (hul : s.used.length = s.cap) :
    (guidset_collect s).length = s.used.count true := by
  unfold guidset_collect
  rw [filterMap_if_length, ← hul]
  exact filter_getD_count s.used

theorem collect_mem (s : GUIDSET) (x : GUID) :
    x ∈ guidset_collect s ↔ MemT s x := by
  unfold guidset_collect MemT
  rw [List.mem_filterMap]
  constructor
  · rintro ⟨i, hi, hf⟩
    rw [List.mem_range] at hi
    by_cases hu : s.used.getD i false = true
    · rw [if_pos hu] at hf
      exact ⟨i, hi, hu, by injection hf⟩
    · rw [if_neg hu] at hf
      cases hf
  · rintro ⟨j, hj, hu, hx⟩
    exact ⟨j, List.mem_range.2 hj, by rw [if_pos hu, hx]⟩

theorem guidset_mem_iff (s : GUIDSET) (g : GUID) :
    guidset_mem s g = true ↔ MemT s g := by
  unfold guidset_mem MemT
  rw [List.any_eq_true]
  constructor
  · rintro ⟨i, hi, hcond⟩
    rw [List.mem_range] at hi
    rw [Bool.and_eq_true, decide_eq_true_eq] at hcond
    exact ⟨i, hi, hcond.1, hcond.2⟩
  · rintro ⟨j, hj, h1, h2⟩
    refine ⟨j, List.mem_range.2 hj, ?_⟩
    rw [Bool.and_eq_true, decide_eq_true_eq]
    exact ⟨h1, h2⟩

theorem capLoop_pow (m : Nat) :
    ∀ fuel i, i ≤ m → m - i < fuel → capLoop (2 ^ m) fuel (2 ^ i) = 2 ^ m := by
  intro fuel
  induction fuel with
  | zero =>
    intro i _ h
    omega
  | succ fuel ih =>
    intro i him hfu
    by_cases hlt : (2 : Nat) ^ i < 2 ^ m
    · have him2 : i < m := by
        by_contra h2
        exact absurd hlt (not_lt.2 (Nat.pow_le_pow_right (by norm_num) (le_of_not_lt h2)))
      have e1 : capLoop (2 ^ m) (fuel + 1) (2 ^ i) = capLoop (2 ^ m) fuel (2 ^ i * 2) := by
        show (if 2 ^ i < 2 ^ m then capLoop (2 ^ m) fuel (2 ^ i * 2) else 2 ^ i) = _
        rw [if_pos hlt]
      rw [e1, ← pow_succ]
      exact ih (i + 1) him2 (by omega)
    · have he : (2 : Nat) ^ i = 2 ^ m :=
        le_antisymm (Nat.pow_le_pow_right (by norm_num) him) (le_of_not_lt hlt)
      show (if 2 ^ i < 2 ^ m then capLoop (2 ^ m) fuel (2 ^ i * 2) else 2 ^ i) = 2 ^ m
      rw [if_neg hlt, he]

theorem init_double (cap : Nat) (k : Nat) (hcap : cap = 2 ^ k) (h64 : 64 ≤ cap) :
    guidset_init (cap * 2) =
      { items := List.replicate (cap * 2) gdefault,
        used := List.replicate (cap * 2) false,
        cap := cap * 2, len := 0 } := by
  have hwant : (if cap * 2 < 64 then 64 else cap * 2) = cap * 2 := by
    rw [if_neg]
    omega
  have h2 : cap * 2 = 2 ^ (k + 1) := by rw [hcap, pow_succ]
  have hcl : capLoop (cap * 2) (cap * 2) 1 = cap * 2 := by
    conv_lhs => rw [h2, show (1 : Nat) = 2 ^ 0 from rfl]
    rw [h2]
    exact capLoop_pow (k + 1) (2 ^ (k + 1)) 0 (by omega)
      (by simpa using Nat.lt_two_pow (k + 1))
  simp only [guidset_init]
  rw [hwant, hcl]

theorem insertFresh_spec :
    ∀ (gs : List GUID) (ns : GUIDSET),
    ns.items.length = ns.cap → ns.used.length = ns.cap → (∃ k, ns.cap = 2 ^ k) →
    ns.len = ns.used.count true →
    ns.len + gs.length ≤ ns.cap →
    (∀ j, j < ns.cap → ns.used.getD j false = true → probePath ns j) →
    ∃ ns2, insertFresh ns gs = some ns2 ∧ ns2.cap = ns.cap ∧
      ns2.items.length = ns2.cap ∧ ns2.used.length = ns2.cap ∧
      ns2.len = ns.len + gs.length ∧ ns2.len = ns2.used.count true ∧
      (∀ j, j < ns2.cap → ns2.used.getD j false = true → probePath ns2 j) ∧
      (∀ x, MemT ns2 x ↔ x ∈ gs ∨ MemT ns x) := by
  intro gs
  induction gs with
  | nil =>
    intro ns hil hul hpow hcount _ hpath
    exact ⟨ns, rfl, rfl, hil, hul, by simp, hcount, hpath, by simp⟩
  | cons g gs ih =>
    intro ns hil hul hpow hcount hroom hpath
    have hc0 : 0 < ns.cap := cap_pos ns.cap hpow
    have hstart : homeIdx ns.cap g < ns.cap := Nat.mod_lt _ hc0
    have hfree : ∃ j, j < ns.used.length ∧ ns.used.getD j false = false := by
      apply exists_free_slot
      rw [hul, ← hcount]
      simp at hroom
      omega
    rw [hul] at hfree
    obtain ⟨t, htc, hf⟩ := probe_reaches_free ns.used ns.cap (homeIdx ns.cap g)
      hc0 hstart hfree
    obtain ⟨d, hdlt, hpre, hfr, heq⟩ := insLoop_finds ns.used ns.cap hpow ns.cap
      (homeIdx ns.cap g) hstart ⟨t, htc, hf⟩
    have hmask : fnvG g &&& (ns.cap - 1) = homeIdx ns.cap g := by
      rw [and_mask ns.cap (fnvG g) hpow]; rfl
    have hstep : insertFresh ns (g :: gs) =
        insertFresh (placeSlot ns g ((homeIdx ns.cap g + d) % ns.cap)) gs := by
      show (match insLoop ns.used (ns.cap - 1) (fnvG g &&& (ns.cap - 1)) ns.cap with
            | none => none
            | some pos => insertFresh { ns with
                items := ns.items.set pos g
                used := ns.used.set pos true
                len := ns.len + 1 } gs) = _
      rw [hmask, heq]
      rfl
    obtain ⟨hcap1, hil1, hul1, hlen1, hcnt1, hpath1, hmem1⟩ :=
      placeSlot_props ns g ((homeIdx ns.cap g + d) % ns.cap) d hil hul hpow rfl
        hdlt hfr hpre hpath
    set P := placeSlot ns g ((homeIdx ns.cap g + d) % ns.cap) with hP
    obtain ⟨ns2, he2, hc2, hi2, hu2, hl2, hct2, hpa2, hme2⟩ := ih P
      (by rw [hil1, hcap1]) (by rw [hul1, hcap1]) (by rw [hcap1]; exact hpow)
      (by rw [hlen1, hcnt1, hcount]) (by rw [hlen1, hcap1]; simp at hroom; omega)
      (by rw [hcap1]; exact hpath1)
    refine ⟨ns2, by rw [hstep]; exact he2, by rw [hc2, hcap1], hi2, hu2, ?_, hct2, hpa2, ?_⟩
    · rw [hl2, hlen1]
      simp
      omega
    · intro x
      rw [hme2 x]
      constructor
      · rintro (hx | hx)
        · exact Or.inl (List.mem_cons_of_mem g hx)
        · rcases (hmem1 x).1 hx with rfl | hx2
          · exact Or.inl (List.mem_cons_self x gs)
          · exact Or.inr hx2
      · rintro (hx | hx)
        · rcases List.mem_cons.1 hx with rfl | hx2
          · exact Or.inr ((hmem1 x).2 (Or.inl rfl))
          · exact Or.inl hx2
        · exact Or.inr ((hmem1 x).2 (Or.inr hx))

theorem guidset_rehash_spec (s : GUIDSET) (h : WF s) :
    ∃ ns, guidset_rehash [] s (s.cap * 2) = (some ns, []) ∧
      ns.cap = 2 * s.cap ∧ ns.items.length = ns.cap ∧ ns.used.length = ns.cap ∧
      (∃ k, ns.cap = 2 ^ k) ∧
      ns.len = s.len ∧ ns.len = ns.used.count true ∧
      (∀ j, j < ns.cap → ns.used.getD j false = true → probePath ns j) ∧
      (∀ x, MemT ns x ↔ MemT s x) := by
  obtain ⟨k, hk⟩ := h.pow
  have hdouble := init_double s.cap k hk h.min64
  set ns0 : GUIDSET :=
    { items := List.replicate (s.cap * 2) gdefault,
      used := List.replicate (s.cap * 2) false,
      cap := s.cap * 2, len := 0 } with hns0
  have hil0 : ns0.items.length = ns0.cap := by simp [hns0]
  have hul0 : ns0.used.length = ns0.cap := by simp [hns0]
  have hpow0 : ∃ j, ns0.cap = 2 ^ j := ⟨k + 1, by simp [hns0, hk, pow_succ]⟩
  have hcnt0 : ns0.len = ns0.used.count true := by
    have hz : ∀ n, (List.replicate n false).count true = 0 := by
      intro n
      induction n with
      | zero => rfl
      | succ n ihn => simpa [List.replicate_succ, List.count_cons] using ihn
    simp [hns0, hz]
  have hroom0 : ns0.len + (guidset_collect s).length ≤ ns0.cap := by
    rw [collect_length s h.used_len, ← h.count]
    have := h.lt
    simp [hns0]
    omega
  have hpath0 : ∀ j, j < ns0.cap → ns0.used.getD j false = true → probePath ns0 j := by
    intro j _ hj
    rw [show ns0.used = List.replicate (s.cap * 2) false from rfl,
      getD_replicate_false] at hj
    exact absurd hj (by decide)
  have hmem0 : ∀ x, ¬ MemT ns0 x := by
    rintro x ⟨j, _, hj, _⟩
    rw [show ns0.used = List.replicate (s.cap * 2) false from rfl,
      getD_replicate_false] at hj
    exact absurd hj (by decide)
  obtain ⟨ns, he, hc, hi, hu, hl, hct, hpa, hme⟩ :=
    insertFresh_spec (guidset_collect s) ns0 hil0 hul0 hpow0 hcnt0 hroom0 hpath0
  refine ⟨ns, ?_, ?_, hi, hu, ?_, ?_, hct, hpa, ?_⟩
  · unfold guidset_rehash
    rw [if_neg (by decide)]
    rw [hdouble, he]
    rfl
  · rw [hc]
    simp [hns0]
    omega
  · rw [hc]
    exact hpow0
  · rw [hl, collect_length s h.used_len, ← h.count]
    simp [hns0]
  · intro x
    rw [hme x, collect_mem s x]
    constructor
    · rintro (hx | hx)
      · exact hx
      · exact absurd hx (hmem0 x)
    · exact Or.inl

/-! ### guidset_add: the main specification -/

theorem count_true_replicate_false (n : Nat) :
    (List.replicate n false).count true = 0 := by
  induction n with
  | zero => rfl
  | succ n ihn => simpa [List.replicate_succ, List.count_cons] using ihn

theorem guidset_init_facts (w k : Nat) (hw : w = 2 ^ k) (h64 : 64 ≤ w) :
    WF (guidset_init w) ∧ (guidset_init w).cap = w ∧ (guidset_init w).len = 0 ∧
    (∀ x, ¬ MemT (guidset_init w) x) := by
  have hwant : (if w < 64 then 64 else w) = w := by
    rw [if_neg]
    omega
  have hcl : capLoop w w 1 = w := by
    conv_lhs => rw [hw, show (1 : Nat) = 2 ^ 0 from rfl]
    rw [hw]
    exact capLoop_pow k (2 ^ k) 0 (by omega) (by simpa using Nat.lt_two_pow k)
  have hinit : guidset_init w = { items := List.replicate w gdefault, used := List.replicate w false, cap := w, len := 0 } := by
    simp only [guidset_init]
    rw [hwant, hcl]
  have husedeq : (guidset_init w).used = List.replicate w false := by rw [hinit]
  have hnotmem : ∀ x, ¬ MemT (guidset_init w) x := by
    rintro x ⟨j, _, hj, _⟩
    rw [husedeq, getD_replicate_false] at hj
    exact absurd hj (by decide)
  refine ⟨?_, by rw [hinit], by rw [hinit], hnotmem⟩
  refine ⟨?_, ?_, ?_, ?_, ?_, ?_, ?_⟩
  · rw [hinit]
    simp
  · rw [hinit]
    simp
  · rw [hinit]
    exact ⟨k, hw⟩
  · rw [hinit]
    exact h64
  · rw [husedeq, count_true_replicate_false, hinit]
  · rw [hinit]
    simpa using (by omega : 0 < w)
  · intro j _ hj
    rw [husedeq, getD_replicate_false] at hj
    exact absurd hj (by decide)

theorem WF_init64 : WF (guidset_init 64) :=
  (guidset_init_facts 64 6 (by norm_num) (by norm_num)).1

theorem WF_init256 : WF (guidset_init 256) :=
  (guidset_init_facts 256 8 (by norm_num) (by norm_num)).1

theorem guidset_add_spec (s : GUIDSET) (g : GUID) (h : WF s) :
    (guidset_add [] s g).1 = true ∧
    (guidset_add [] s g).2.2 = [] ∧
    WF (guidset_add [] s g).2.1 ∧
    (∀ x, MemT (guidset_add [] s g).2.1 x ↔ x = g ∨ MemT s x) ∧
    (guidset_add [] s g).2.1.len = (if guidset_mem s g then s.len else s.len + 1) ∧
    (guidset_add [] s g).2.1.cap =
      (if (s.len + 1) * 10 ≥ s.cap * 7 then 2 * s.cap else s.cap) := by
  by_cases hth : (s.len + 1) * 10 ≥ s.cap * 7
  · obtain ⟨ns, hre, hcap2, hi, hu, hpow2, hlen2, hcnt2, hpa2, hme2⟩ :=
      guidset_rehash_spec s h
    have hadd : guidset_add [] s g = ((addProbe ns g).1, (addProbe ns g).2, []) := by
      unfold guidset_add
      rw [if_pos hth, hre]
    by_cases hmem : MemT s g
    · have hfinal : guidset_add [] s g = (true, ns, []) := by
        rw [hadd, addProbe_dup ns g hi hu hpow2 ((hme2 g).2 hmem) hpa2]
      have hwfns : WF ns := by
        refine ⟨hi, hu, hpow2, ?_, hcnt2, ?_, hpa2⟩
        · rw [hcap2]
          have := h.min64
          omega
        · rw [hlen2, hcap2]
          have := h.lt
          omega
      have hmemns : ∀ x, MemT ns x ↔ x = g ∨ MemT s x := by
        intro x
        rw [hme2 x]
        constructor
        · exact Or.inr
        · rintro (rfl | hx)
          · exact hmem
          · exact hx
      have hlenns : ns.len = (if guidset_mem s g then s.len else s.len + 1) := by
        rw [if_pos ((guidset_mem_iff s g).2 hmem)]
        exact hlen2
      have hcapns : ns.cap = (if (s.len + 1) * 10 ≥ s.cap * 7 then 2 * s.cap else s.cap) := by
        rw [if_pos hth]
        exact hcap2
      rw [hfinal]
      exact ⟨rfl, rfl, hwfns, hmemns, hlenns, hcapns⟩
    · have hnmns : ¬ MemT ns g := fun hx => hmem ((hme2 g).1 hx)
      have hfreens : ∃ j, j < ns.cap ∧ ns.used.getD j false = false := by
        have hcnt : ns.used.count true < ns.used.length := by
          rw [hu, ← hcnt2, hlen2, hcap2]
          have := h.lt
          omega
        obtain ⟨j, hj, hf⟩ := exists_free_slot ns.used hcnt
        rw [hu] at hj
        exact ⟨j, hj, hf⟩
      obtain ⟨pos, dd, hposdef, hddlt, hposlt, hposfree, hpre, haddp⟩ :=
        addProbe_insert ns g hi hu hpow2 hfreens hnmns
      obtain ⟨hPcap, hPil, hPul, hPlen, hPcnt, hPpath, hPmem⟩ :=
        placeSlot_props ns g pos dd hi hu hpow2 hposdef hddlt hposfree hpre hpa2
      have hfinal : guidset_add [] s g = (true, placeSlot ns g pos, []) := by
        rw [hadd, haddp]
      have hwfP : WF (placeSlot ns g pos) := by
        refine ⟨?_, ?_, ?_, ?_, ?_, ?_, ?_⟩
        · rw [hPcap]
          exact hPil
        · rw [hPcap]
          exact hPul
        · rw [hPcap]
          exact hpow2
        · rw [hPcap, hcap2]
          have := h.min64
          omega
        · show (placeSlot ns g pos).len = (placeSlot ns g pos).used.count true
          rw [hPlen, hPcnt, hcnt2]
        · rw [hPlen, hPcap, hlen2, hcap2]
          have := h.lt
          omega
        · intro j hj hju
          rw [hPcap] at hj
          exact hPpath j hj hju
      have hmemP : ∀ x, MemT (placeSlot ns g pos) x ↔ x = g ∨ MemT s x := by
        intro x
        rw [hPmem x]
        constructor
        · rintro (rfl | hx)
          · exact Or.inl rfl
          · exact Or.inr ((hme2 x).1 hx)
        · rintro (rfl | hx)
          · exact Or.inl rfl
          · exact Or.inr ((hme2 x).2 hx)
      have hlenP : (placeSlot ns g pos).len = (if guidset_mem s g then s.len else s.len + 1) := by
        rw [if_neg (fun hc => hmem ((guidset_mem_iff s g).1 hc)), hPlen, hlen2]
      have hcapP : (placeSlot ns g pos).cap = (if (s.len + 1) * 10 ≥ s.cap * 7 then 2 * s.cap else s.cap) := by
        rw [if_pos hth, hPcap]
        exact hcap2
      rw [hfinal]
      exact ⟨rfl, rfl, hwfP, hmemP, hlenP, hcapP⟩
  · have hadd : guidset_add [] s g = ((addProbe s g).1, (addProbe s g).2, []) := by
      unfold guidset_add
      rw [if_neg hth]
    by_cases hmem : MemT s g
    · have hfinal : guidset_add [] s g = (true, s, []) := by
        rw [hadd, addProbe_dup s g h.items_len h.used_len h.pow hmem h.path]
      have hmemS : ∀ x, MemT s x ↔ x = g ∨ MemT s x := by
        intro x
        constructor
        · exact Or.inr
        · rintro (rfl | hx)
          · exact hmem
          · exact hx
      have hlenS : s.len = (if guidset_mem s g then s.len else s.len + 1) := by
        rw [if_pos ((guidset_mem_iff s g).2 hmem)]
      have hcapS : s.cap = (if (s.len + 1) * 10 ≥ s.cap * 7 then 2 * s.cap else s.cap) := by
        rw [if_neg hth]
      rw [hfinal]
      exact ⟨rfl, rfl, h, hmemS, hlenS, hcapS⟩
    · have hfreens : ∃ j, j < s.cap ∧ s.used.getD j false = false := by
        have hcnt : s.used.count true < s.used.length := by
          rw [h.used_len, ← h.count]
          exact h.lt
        obtain ⟨j, hj, hf⟩ := exists_free_slot s.used hcnt
        rw [h.used_len] at hj
        exact ⟨j, hj, hf⟩
      obtain ⟨pos, dd, hposdef, hddlt, hposlt, hposfree, hpre, haddp⟩ :=
        addProbe_insert s g h.items_len h.used_len h.pow hfreens hmem
      obtain ⟨hPcap, hPil, hPul, hPlen, hPcnt, hPpath, hPmem⟩ :=
        placeSlot_props s g pos dd h.items_len h.used_len h.pow hposdef hddlt
          hposfree hpre h.path
      have hfinal : guidset_add [] s g = (true, placeSlot s g pos, []) := by
        rw [hadd, haddp]
      have hlt2 : s.len + 1 < s.cap := by
        rw [ge_iff_le, not_le] at hth
        omega
      have hwfP : WF (placeSlot s g pos) := by
        refine ⟨?_, ?_, ?_, ?_, ?_, ?_, ?_⟩
        · rw [hPcap]
          exact hPil
        · rw [hPcap]
          exact hPul
        · rw [hPcap]
          exact h.pow
        · rw [hPcap]
          exact h.min64
        · show (placeSlot s g pos).len = (placeSlot s g pos).used.count true
          rw [hPlen, hPcnt, h.count]
        · rw [hPlen, hPcap]
          exact hlt2
        · intro j hj hju
          rw [hPcap] at hj
          exact hPpath j hj hju
      have hlenP : (placeSlot s g pos).len = (if guidset_mem s g then s.len else s.len + 1) := by
        rw [if_neg (fun hc => hmem ((guidset_mem_iff s g).1 hc)), hPlen]
      have hcapP : (placeSlot s g pos).cap = (if (s.len + 1) * 10 ≥ s.cap * 7 then 2 * s.cap else s.cap) := by
        rw [if_neg hth, hPcap]
      rw [hfinal]
      exact ⟨rfl, rfl, hwfP, hPmem, hlenP, hcapP⟩

/-! ### insertAll -/

theorem insertAll_spec (gs : List GUID) :
    ∀ s0 : GUIDSET, WF s0 →
    WF (insertAll s0 gs) ∧
    (∀ x, MemT (insertAll s0 gs) x ↔ x ∈ gs ∨ MemT s0 x) := by
  induction gs with
  | nil =>
    intro s0 h
    exact ⟨h, by simp [insertAll]⟩
  | cons g gs ih =>
    intro s0 h
    have hstep := guidset_add_spec s0 g h
    have hA : insertAll s0 (g :: gs) = insertAll (guidset_add [] s0 g).2.1 gs := rfl
    rw [hA]
    obtain ⟨hwf2, hmem2⟩ := ih _ hstep.2.2.1
    refine ⟨hwf2, ?_⟩
    intro x
    rw [hmem2 x]
    constructor
    · rintro (hx | hx)
      · exact Or.inl (List.mem_cons_of_mem _ hx)
      · rcases (hstep.2.2.2.1 x).1 hx with rfl | hx2
        · exact Or.inl (List.mem_cons_self x gs)
        · exact Or.inr hx2
    · rintro (hx | hx)
      · rcases List.mem_cons.1 hx with rfl | hx2
        · exact Or.inr ((hstep.2.2.2.1 x).2 (Or.inl rfl))
        · exact Or.inl hx2
      · exact Or.inr ((hstep.2.2.2.1 x).2 (Or.inr hx))

theorem insertAll_len_new (gs : List GUID) :
    ∀ s0, WF s0 → gs.Nodup → (∀ x ∈ gs, ¬ MemT s0 x) →
    (insertAll s0 gs).len = s0.len + gs.length := by
  induction gs with
  | nil =>
    intro s0 _ _ _
    simp [insertAll]
  | cons g gs ih =>
    intro s0 h hnd hfresh
    have hstep := guidset_add_spec s0 g h
    have hlen1 : (guidset_add [] s0 g).2.1.len = s0.len + 1 := by
      rw [hstep.2.2.2.2.1, if_neg]
      intro hc
      exact hfresh g (List.mem_cons_self g gs) ((guidset_mem_iff s0 g).1 hc)
    have hA : insertAll s0 (g :: gs) = insertAll (guidset_add [] s0 g).2.1 gs := rfl
    have hfresh2 : ∀ x ∈ gs, ¬ MemT (guidset_add [] s0 g).2.1 x := by
      intro x hx hmx
      rcases (hstep.2.2.2.1 x).1 hmx with rfl | hmx2
      · exact (List.nodup_cons.1 hnd).1 hx
      · exact hfresh x (List.mem_cons_of_mem _ hx) hmx2
    rw [hA, ih _ hstep.2.2.1 (List.nodup_cons.1 hnd).2 hfresh2, hlen1]
    simp [List.length_cons]
    omega

theorem insertAll_len_dup (gs : List GUID) :
    ∀ s0, WF s0 → (∀ x ∈ gs, MemT s0 x) → (insertAll s0 gs).len = s0.len := by
  induction gs with
  | nil =>
    intro s0 _ _
    simp [insertAll]
  | cons g gs ih =>
    intro s0 h hall
    have hstep := guidset_add_spec s0 g h
    have hlen1 : (guidset_add [] s0 g).2.1.len = s0.len := by
      rw [hstep.2.2.2.2.1,
        if_pos ((guidset_mem_iff s0 g).2 (hall g (List.mem_cons_self g gs)))]
    have hA : insertAll s0 (g :: gs) = insertAll (guidset_add [] s0 g).2.1 gs := rfl
    have hall2 : ∀ x ∈ gs, MemT (guidset_add [] s0 g).2.1 x := by
      intro x hx
      exact (hstep.2.2.2.1 x).2 (Or.inr (hall x (List.mem_cons_of_mem _ hx)))
    rw [hA, ih _ hstep.2.2.1 hall2, hlen1]

/-! ### Scan loop unfolding and step lemmas -/

theorem getD_take_lt (l : List α) (n m : Nat) (d : α) (h : m < n) :
    (l.take n).getD m d = l.getD m d := by
  rw [List.getD_eq_getD_get?, List.getD_eq_getD_get?, List.get?_eq_getElem?,
    List.get?_eq_getElem?, List.getElem?_take_of_lt h]

theorem asciiLoop_succ (locate : Bool) (buf : List Nat) (base fuel i : Nat) (st : ScanSt) :
    asciiLoop locate buf base (fuel + 1) i st =
      if i + 36 ≤ buf.length then
        if candidateStart (buf.getD i 0) then
          match match_guid_ascii_at (buf.drop i) with
          | some (consumed, g) =>
            asciiLoop locate buf base fuel (i + (consumed - 1) + 1)
              (asciiHitSt locate base i consumed g st)
          | none => asciiLoop locate buf base fuel (i + 1) st
        else asciiLoop locate buf base fuel (i + 1) st
      else st := rfl

theorem asciiLoop_big (locate : Bool) (buf : List Nat) (base : Nat) :
    ∀ fuel i st, ¬ (i + 36 ≤ buf.length) →
    asciiLoop locate buf base fuel i st = st := by
  intro fuel
  cases fuel with
  | zero => intro i st _; rfl
  | succ fuel =>
    intro i st h
    rw [asciiLoop_succ, if_neg h]

theorem asciiLoop_skip (locate : Bool) (buf : List Nat) (base fuel i : Nat) (st : ScanSt)
    (h1 : i + 36 ≤ buf.length) (h2 : candidateStart (buf.getD i 0) = false) :
    asciiLoop locate buf base (fuel + 1) i st = asciiLoop locate buf base fuel (i + 1) st := by
  rw [asciiLoop_succ, if_pos h1, h2, if_neg Bool.false_ne_true]

theorem asciiLoop_nomatch (locate : Bool) (buf : List Nat) (base fuel i : Nat) (st : ScanSt)
    (h1 : i + 36 ≤ buf.length) (h2 : candidateStart (buf.getD i 0) = true)
    (h3 : match_guid_ascii_at (buf.drop i) = none) :
    asciiLoop locate buf base (fuel + 1) i st = asciiLoop locate buf base fuel (i + 1) st := by
  rw [asciiLoop_succ, if_pos h1, h2, if_pos rfl, h3]

theorem asciiLoop_hit (locate : Bool) (buf : List Nat) (base fuel i c : Nat) (g : GUID)
    (st : ScanSt) (h1 : i + 36 ≤ buf.length) (h2 : candidateStart (buf.getD i 0) = true)
    (h3 : match_guid_ascii_at (buf.drop i) = some (c, g)) :
    asciiLoop locate buf base (fuel + 1) i st =
      asciiLoop locate buf base fuel (i + (c - 1) + 1) (asciiHitSt locate base i c g st) := by
  rw [asciiLoop_succ, if_pos h1, h2, if_pos rfl, h3]

theorem binLoop_succ (loose locate : Bool) (buf : List Nat) (base fuel i : Nat) (st : ScanSt) :
    binLoop loose locate buf base (fuel + 1) i st =
      if i + 16 ≤ buf.length then
        if binAccepts loose buf i then
          binLoop loose locate buf base fuel (i + 1)
            (binHitSt loose locate base i (guid_from_mem (buf.drop i)) st)
        else binLoop loose locate buf base fuel (i + 1) st
      else st := rfl

theorem binLoop_big (loose locate : Bool) (buf : List Nat) (base : Nat) :
    ∀ fuel i st, ¬ (i + 16 ≤ buf.length) →
    binLoop loose locate buf base fuel i st = st := by
  intro fuel
  cases fuel with
  | zero => intro i st _; rfl
  | succ fuel =>
    intro i st h
    rw [binLoop_succ, if_neg h]

theorem binLoop_step (loose locate : Bool) (buf : List Nat) (base fuel i : Nat) (st : ScanSt)
    (h1 : i + 16 ≤ buf.length) :
    binLoop loose locate buf base (fuel + 1) i st =
      binLoop loose locate buf base fuel (i + 1)
        (if binAccepts loose buf i then
          binHitSt loose locate base i (guid_from_mem (buf.drop i)) st
         else st) := by
  rw [binLoop_succ, if_pos h1]
  by_cases hacc : binAccepts loose buf i = true
  · rw [if_pos hacc, if_pos hacc]
  · rw [if_neg hacc, if_neg hacc]

theorem scanChunks_succ (opt : SCANOPTS) (failAt : Option Nat) (fuel j : Nat)
    (carry input : List Nat) (base : Nat) (st : ScanSt) :
    scanChunks opt failAt (fuel + 1) j carry input base st =
      if failAt = some j then st
      else if (input.take CHUNK).length = 0 then st
      else
        scanChunks opt failAt fuel (j + 1)
          ((carry ++ input.take CHUNK).drop ((carry ++ input.take CHUNK).length -
            min (carry ++ input.take CHUNK).length OVERLAP))
          (input.drop CHUNK)
          (base + ((carry ++ input.take CHUNK).length -
            min (carry ++ input.take CHUNK).length OVERLAP))
          (if opt.binary_scan then
            binLoop opt.binary_loose opt.locate (carry ++ input.take CHUNK) base
              ((carry ++ input.take CHUNK).length + 1) 0
              (asciiLoop opt.locate (carry ++ input.take CHUNK) base
                ((carry ++ input.take CHUNK).length + 1) 0 st)
           else
            asciiLoop opt.locate (carry ++ input.take CHUNK) base
              ((carry ++ input.take CHUNK).length + 1) 0 st) := rfl

theorem scanChunks_step (opt : SCANOPTS) (failAt : Option Nat) (fuel j : Nat)
    (carry input : List Nat) (base : Nat) (st : ScanSt)
    (hj : ¬ (failAt = some j))
    (hgot : ¬ ((input.take CHUNK).length = 0)) :
    scanChunks opt failAt (fuel + 1) j carry input base st =
      scanChunks opt failAt fuel (j + 1)
        ((carry ++ input.take CHUNK).drop ((carry ++ input.take CHUNK).length -
          min (carry ++ input.take CHUNK).length OVERLAP))
        (input.drop CHUNK)
        (base + ((carry ++ input.take CHUNK).length -
          min (carry ++ input.take CHUNK).length OVERLAP))
        (if opt.binary_scan then
          binLoop opt.binary_loose opt.locate (carry ++ input.take CHUNK) base
            ((carry ++ input.take CHUNK).length + 1) 0
            (asciiLoop opt.locate (carry ++ input.take CHUNK) base
              ((carry ++ input.take CHUNK).length + 1) 0 st)
         else
          asciiLoop opt.locate (carry ++ input.take CHUNK) base
            ((carry ++ input.take CHUNK).length + 1) 0 st) := by
  rw [scanChunks_succ, if_neg hj, if_neg hgot]

/-! ### The matcher on the concrete identifier text -/

theorem all_congr (l : List α) (f g : α → Bool) (h : ∀ x ∈ l, f x = g x) :
    l.all f = l.all g := by
  induction l with
  | nil => rfl
  | cons a l ih =>
    simp only [List.all_cons]
    rw [h a (by simp), ih (fun x hx => h x (by simp [hx]))]

theorem parse_hex_loop_succ (p : List Nat) (v off n : Nat) :
    parse_hex_loop p v off (n + 1) =
      match hex_val8 (p.getD off 0) with
      | none => none
      | some hv => parse_hex_loop p (((v <<< 4) ||| hv) % 4294967296) (off + 1) n := rfl

theorem parse_hex_loop_congr (p q : List Nat) :
    ∀ n v off, (∀ j, j < n → p.getD (off + j) 0 = q.getD (off + j) 0) →
    parse_hex_loop p v off n = parse_hex_loop q v off n := by
  intro n
  induction n with
  | zero => intro v off _; rfl
  | succ n ih =>
    intro v off h
    have h0 : p.getD off 0 = q.getD off 0 := by
      have := h 0 (by omega)
      simpa using this
    rw [parse_hex_loop_succ, parse_hex_loop_succ, h0]
    cases hex_val8 (q.getD off 0) with
    | none => rfl
    | some hv =>
      refine ih _ (off + 1) (fun j hj => ?_)
      have e : off + 1 + j = off + (j + 1) := by omega
      rw [e]
      exact h (j + 1) (by omega)

theorem d4Bytes_succ (p : List Nat) (i n : Nat) :
    d4Bytes p i (n + 1) =
      match hex_val8 (p.getD (24 + 2 * i) 0), hex_val8 (p.getD (24 + 2 * i + 1) 0) with
      | some hi, some lo =>
        (match d4Bytes p (i + 1) n with
         | some rest => some ((hi * 16 + lo) :: rest)
         | none => none)
      | _, _ => none := rfl

theorem d4Bytes_congr (p q : List Nat) (hagree : ∀ j, j < 36 → p.getD j 0 = q.getD j 0) :
    ∀ n i, 24 + 2 * i + 2 * n ≤ 36 → d4Bytes p i n = d4Bytes q i n := by
  intro n
  induction n with
  | zero => intro i _; rfl
  | succ n ih =>
    intro i hb
    rw [d4Bytes_succ, d4Bytes_succ, hagree (24 + 2 * i) (by omega),
      hagree (24 + 2 * i + 1) (by omega), ih (i + 1) (by omega)]

theorem valid36_congr (p q : List Nat) (hagree : ∀ j, j < 36 → p.getD j 0 = q.getD j 0) :
    valid36 p = valid36 q := by
  unfold valid36
  apply all_congr
  intro i hi
  rw [List.mem_range] at hi
  by_cases hd : i = 8 ∨ i = 13 ∨ i = 18 ∨ i = 23
  · rw [if_pos hd, if_pos hd, hagree i hi]
  · rw [if_neg hd, if_neg hd, hagree i hi]

theorem parse36_congr (p q : List Nat) (hagree : ∀ j, j < 36 → p.getD j 0 = q.getD j 0) :
    parse_guid_ascii36 p = parse_guid_ascii36 q := by
  unfold parse_guid_ascii36
  rw [valid36_congr p q hagree]
  rw [show parse_u32_hex_n p 0 8 = parse_u32_hex_n q 0 8 from
    parse_hex_loop_congr p q 8 0 0 (fun j hj => hagree (0 + j) (by omega))]
  rw [show parse_u16_hex_n p 9 4 = parse_u16_hex_n q 9 4 from by
    unfold parse_u16_hex_n parse_u32_hex_n
    rw [parse_hex_loop_congr p q 4 0 9 (fun j hj => hagree (9 + j) (by omega))]]
  rw [show parse_u16_hex_n p 14 4 = parse_u16_hex_n q 14 4 from by
    unfold parse_u16_hex_n parse_u32_hex_n
    rw [parse_hex_loop_congr p q 4 0 14 (fun j hj => hagree (14 + j) (by omega))]]
  rw [show parse_u16_hex_n p 19 4 = parse_u16_hex_n q 19 4 from by
    unfold parse_u16_hex_n parse_u32_hex_n
    rw [parse_hex_loop_congr p q 4 0 19 (fun j hj => hagree (19 + j) (by omega))]]
  rw [d4Bytes_congr p q hagree 6 0 (by omega)]

theorem G36_length : G36.length = 36 := rfl

theorem parse36_G36_append (rest : List Nat) :
    parse_guid_ascii36 (G36 ++ rest) = some gG := by
  rw [parse36_congr (G36 ++ rest) G36
    (fun j hj => getD_append_lt G36 rest 0 j (by rw [G36_length]; omega))]
  decide

theorem match_at_G36 (rest : List Nat) :
    match_guid_ascii_at (G36 ++ rest) = some (36, gG) := by
  unfold match_guid_ascii_at
  have hb : ¬ (38 ≤ (G36 ++ rest).length ∧ (G36 ++ rest).getD 0 0 = 123 ∧
      (G36 ++ rest).getD 37 0 = 125) := by
    rintro ⟨_, hbrace, _⟩
    rw [getD_append_lt G36 rest 0 0 (by rw [G36_length]; omega)] at hbrace
    exact absurd hbrace (by decide)
  rw [if_neg hb,
    if_pos (show 36 ≤ (G36 ++ rest).length by rw [List.length_append, G36_length]; omega),
    parse36_G36_append rest]
  rfl

theorem match_consumed (p : List Nat) (c : Nat) (g : GUID)
    (h : match_guid_ascii_at p = some (c, g)) : c = 36 ∨ c = 38 := by
  unfold match_guid_ascii_at at h
  split at h
  · split at h
    · right
      injection h with h2
      injection h2 with h3 _
      omega
    · cases h
  · split at h
    · cases hp : parse_guid_ascii36 p with
      | none =>
        rw [hp] at h
        cases h
      | some g2 =>
        rw [hp] at h
        left
        injection h with h2
        injection h2 with h3 _
        omega
    · cases h

/-! ### State preservation through the scan loops -/

theorem addIgnored_props (st : ScanSt) (g : GUID) (ha : st.alloc = []) (hw : WF st.set) :
    (addIgnored st g).alloc = [] ∧ WF (addIgnored st g).set ∧
    (∀ x, MemT st.set x → MemT (addIgnored st g).set x) ∧
    MemT (addIgnored st g).set g ∧
    (addIgnored st g).stats = st.stats ∧ (addIgnored st g).hits = st.hits := by
  have hspec := guidset_add_spec st.set g hw
  unfold addIgnored
  rw [ha]
  refine ⟨hspec.2.1, hspec.2.2.1, ?_, ?_, rfl, rfl⟩
  · intro x hx
    exact (hspec.2.2.2.1 x).2 (Or.inr hx)
  · exact (hspec.2.2.2.1 g).2 (Or.inl rfl)

theorem asciiHitSt_hits (locate : Bool) (base i c : Nat) (g : GUID) (st : ScanSt) :
    (asciiHitSt locate base i c g st).hits =
      if locate then st.hits ++ [⟨base + i, c, HitKind.ascii, g⟩] else st.hits := by
  unfold asciiHitSt addIgnored
  by_cases hl : locate = true
  · rw [if_pos hl, if_pos hl]
  · rw [if_neg hl, if_neg hl]

theorem asciiHitSt_main (locate : Bool) (base i c : Nat) (g : GUID) (st : ScanSt)
    (ha : st.alloc = []) (hw : WF st.set) :
    (asciiHitSt locate base i c g st).alloc = [] ∧
    WF (asciiHitSt locate base i c g st).set ∧
    (∀ x, MemT st.set x → MemT (asciiHitSt locate base i c g st).set x) ∧
    MemT (asciiHitSt locate base i c g st).set g ∧
    (asciiHitSt locate base i c g st).stats.ascii_hits = st.stats.ascii_hits + 1 := by
  obtain ⟨h1, h2, h3, h4, h5, _⟩ := addIgnored_props st g ha hw
  unfold asciiHitSt
  by_cases hl : locate = true
  · rw [if_pos hl]
    refine ⟨h1, h2, h3, h4, ?_⟩
    show (addIgnored st g).stats.ascii_hits + 1 = st.stats.ascii_hits + 1
    rw [h5]
  · rw [if_neg hl]
    refine ⟨h1, h2, h3, h4, ?_⟩
    show (addIgnored st g).stats.ascii_hits + 1 = st.stats.ascii_hits + 1
    rw [h5]

theorem binHitSt_main (loose locate : Bool) (base i : Nat) (g : GUID) (st : ScanSt)
    (ha : st.alloc = []) (hw : WF st.set) :
    (binHitSt loose locate base i g st).alloc = [] ∧
    WF (binHitSt loose locate base i g st).set ∧
    (∀ x, MemT st.set x → MemT (binHitSt loose locate base i g st).set x) ∧
    (binHitSt loose locate base i g st).stats.ascii_hits = st.stats.ascii_hits := by
  obtain ⟨h1, h2, h3, _, h5, _⟩ := addIgnored_props st g ha hw
  unfold binHitSt
  by_cases hl : locate = true
  · rw [if_pos hl]
    refine ⟨h1, h2, h3, ?_⟩
    show (addIgnored st g).stats.ascii_hits = st.stats.ascii_hits
    rw [h5]
  · rw [if_neg hl]
    refine ⟨h1, h2, h3, ?_⟩
    show (addIgnored st g).stats.ascii_hits = st.stats.ascii_hits
    rw [h5]

theorem binHitSt_binhits (loose locate : Bool) (base i : Nat) (g : GUID) (st : ScanSt) :
    (binHitSt loose locate base i g st).stats.bin_hits = st.stats.bin_hits + 1 := by
  unfold binHitSt
  by_cases hl : locate = true
  · rw [if_pos hl]
    show (addIgnored st g).stats.bin_hits + 1 = st.stats.bin_hits + 1
    rfl
  · rw [if_neg hl]
    show (addIgnored st g).stats.bin_hits + 1 = st.stats.bin_hits + 1
    rfl

theorem candidateStart_false_of_not (c : Nat) (h : ¬ candidateStart c = true) :
    candidateStart c = false := by
  cases hcs : candidateStart c
  · rfl
  · exact absurd hcs h

theorem asciiLoop_preserve (locate : Bool) (buf : List Nat) (base : Nat) :
    ∀ fuel i st, st.alloc = [] → WF st.set →
    (asciiLoop locate buf base fuel i st).alloc = [] ∧
    WF (asciiLoop locate buf base fuel i st).set ∧
    (∀ x, MemT st.set x → MemT (asciiLoop locate buf base fuel i st).set x) ∧
    st.stats.ascii_hits ≤ (asciiLoop locate buf base fuel i st).stats.ascii_hits := by
  intro fuel
  induction fuel with
  | zero =>
    intro i st ha hw
    exact ⟨ha, hw, fun x hx => hx, le_refl _⟩
  | succ fuel ih =>
    intro i st ha hw
    by_cases h1 : i + 36 ≤ buf.length
    · by_cases h2 : candidateStart (buf.getD i 0) = true
      · cases hm : match_guid_ascii_at (buf.drop i) with
        | none =>
          rw [asciiLoop_nomatch locate buf base fuel i st h1 h2 hm]
          exact ih (i + 1) st ha hw
        | some cg =>
          obtain ⟨c, g⟩ := cg
          rw [asciiLoop_hit locate buf base fuel i c g st h1 h2 hm]
          obtain ⟨p1, p2, p3, _, p5⟩ := asciiHitSt_main locate base i c g st ha hw
          obtain ⟨q1, q2, q3, q4⟩ := ih _ _ p1 p2
          exact ⟨q1, q2, fun x hx => q3 x (p3 x hx), by omega⟩
      · rw [asciiLoop_skip locate buf base fuel i st h1 (candidateStart_false_of_not _ h2)]
        exact ih (i + 1) st ha hw
    · rw [asciiLoop_big locate buf base (fuel + 1) i st h1]
      exact ⟨ha, hw, fun x hx => hx, le_refl _⟩

theorem binLoop_preserve (loose locate : Bool) (buf : List Nat) (base : Nat) :
    ∀ fuel i st, st.alloc = [] → WF st.set →
    (binLoop loose locate buf base fuel i st).alloc = [] ∧
    WF (binLoop loose locate buf base fuel i st).set ∧
    (∀ x, MemT st.set x → MemT (binLoop loose locate buf base fuel i st).set x) ∧
    st.stats.ascii_hits ≤ (binLoop loose locate buf base fuel i st).stats.ascii_hits := by
  intro fuel
  induction fuel with
  | zero =>
    intro i st ha hw
    exact ⟨ha, hw, fun x hx => hx, le_refl _⟩
  | succ fuel ih =>
    intro i st ha hw
    by_cases h1 : i + 16 ≤ buf.length
    · rw [binLoop_step loose locate buf base fuel i st h1]
      by_cases hacc : binAccepts loose buf i = true
      · rw [if_pos hacc]
        obtain ⟨p1, p2, p3, p4⟩ :=
          binHitSt_main loose locate base i (guid_from_mem (buf.drop i)) st ha hw
        obtain ⟨q1, q2, q3, q4⟩ := ih _ _ p1 p2
        exact ⟨q1, q2, fun x hx => q3 x (p3 x hx), by omega⟩
      · rw [if_neg hacc]
        exact ih (i + 1) st ha hw
    · rw [binLoop_big loose locate buf base (fuel + 1) i st h1]
      exact ⟨ha, hw, fun x hx => hx, le_refl _⟩

theorem scanChunks_preserve (opt : SCANOPTS) (failAt : Option Nat) :
    ∀ fuel j (carry input : List Nat) (base : Nat) (st : ScanSt),
    st.alloc = [] → WF st.set →
    (scanChunks opt failAt fuel j carry input base st).alloc = [] ∧
    WF (scanChunks opt failAt fuel j carry input base st).set ∧
    (∀ x, MemT st.set x → MemT (scanChunks opt failAt fuel j carry input base st).set x) ∧
    st.stats.ascii_hits ≤ (scanChunks opt failAt fuel j carry input base st).stats.ascii_hits := by
  intro fuel
  induction fuel with
  | zero =>
    intro j carry input base st ha hw
    exact ⟨ha, hw, fun x hx => hx, le_refl _⟩
  | succ fuel ih =>
    intro j carry input base st ha hw
    rw [scanChunks_succ]
    by_cases hj : failAt = some j
    · rw [if_pos hj]
      exact ⟨ha, hw, fun x hx => hx, le_refl _⟩
    · rw [if_neg hj]
      by_cases hgot : (input.take CHUNK).length = 0
      · rw [if_pos hgot]
        exact ⟨ha, hw, fun x hx => hx, le_refl _⟩
      · rw [if_neg hgot]
        obtain ⟨a1, a2, a3, a4⟩ := asciiLoop_preserve opt.locate
          (carry ++ input.take CHUNK) base ((carry ++ input.take CHUNK).length + 1) 0 st ha hw
        by_cases hbin : opt.binary_scan = true
        · rw [if_pos hbin]
          obtain ⟨b1, b2, b3, b4⟩ := binLoop_preserve opt.binary_loose opt.locate
            (carry ++ input.take CHUNK) base ((carry ++ input.take CHUNK).length + 1) 0 _ a1 a2
          obtain ⟨c1, c2, c3, c4⟩ := ih (j + 1) _ _ _ _ b1 b2
          exact ⟨c1, c2, fun x hx => c3 x (b3 x (a3 x hx)), by omega⟩
        · rw [if_neg hbin]
          obtain ⟨c1, c2, c3, c4⟩ := ih (j + 1) _ _ _ _ a1 a2
          exact ⟨c1, c2, fun x hx => c3 x (a3 x hx), by omega⟩

/-! ### Finding the identifier inside one buffer -/

theorem asciiLoop_skip_run (locate : Bool) (buf : List Nat) (base : Nat) :
    ∀ k fuel i st, (∀ j, j < k → candidateStart (buf.getD (i + j) 0) = false) →
    k ≤ fuel →
    asciiLoop locate buf base fuel i st = asciiLoop locate buf base (fuel - k) (i + k) st := by
  intro k
  induction k with
  | zero =>
    intro fuel i st _ _
    simp
  | succ k ihk =>
    intro fuel i st h hk
    obtain ⟨f, rfl⟩ : ∃ f, fuel = f + 1 := ⟨fuel - 1, by omega⟩
    by_cases h1 : i + 36 ≤ buf.length
    · rw [asciiLoop_skip locate buf base f i st h1 (by simpa using h 0 (by omega))]
      have hrec := ihk f (i + 1) st (fun j hj => by
        have e : i + 1 + j = i + (j + 1) := by omega
        rw [e]
        exact h (j + 1) (by omega)) (by omega)
      have e1 : f - k = f + 1 - (k + 1) := by omega
      have e2 : i + 1 + k = i + (k + 1) := by omega
      rw [e1, e2] at hrec
      exact hrec
    · rw [asciiLoop_big locate buf base (f + 1) i st h1,
        asciiLoop_big locate buf base (f + 1 - (k + 1)) (i + (k + 1)) st (by omega)]

theorem asciiLoop_finds_G36 (locate : Bool) (buf : List Nat) (base a : Nat) (rest : List Nat)
    (hzero : ∀ j, j < a → candidateStart (buf.getD j 0) = false)
    (hdrop : buf.drop a = G36 ++ rest)
    (hlen : a + 36 ≤ buf.length) :
    ∀ st, st.alloc = [] → WF st.set →
    MemT (asciiLoop locate buf base (buf.length + 1) 0 st).set gG ∧
    st.stats.ascii_hits < (asciiLoop locate buf base (buf.length + 1) 0 st).stats.ascii_hits := by
  intro st ha hw
  have hrun := asciiLoop_skip_run locate buf base a (buf.length + 1) 0 st
    (fun j hj => by simpa using hzero j hj) (by omega)
  rw [Nat.zero_add] at hrun
  rw [hrun]
  obtain ⟨f, hf⟩ : ∃ f, buf.length + 1 - a = f + 1 := ⟨buf.length - a, by omega⟩
  rw [hf]
  have h2 : candidateStart (buf.getD a 0) = true := by
    have e := getD_drop buf a 0 0
    rw [hdrop, Nat.add_zero] at e
    rw [← e, getD_append_lt G36 rest 0 0 (by rw [G36_length]; omega)]
    decide
  have h3 : match_guid_ascii_at (buf.drop a) = some (36, gG) := by
    rw [hdrop]
    exact match_at_G36 rest
  rw [asciiLoop_hit locate buf base f a 36 gG st hlen h2 h3]
  obtain ⟨p1, p2, p3, p4, p5⟩ := asciiHitSt_main locate base a 36 gG st ha hw
  obtain ⟨q1, q2, q3, q4⟩ := asciiLoop_preserve locate buf base f (a + (36 - 1) + 1) _ p1 p2
  exact ⟨q3 gG p4, by omega⟩

/-! ### Binary loop as a fold over the accepted window starts -/

theorem binFold_binhits (loose locate : Bool) (buf : List Nat) (base : Nat) :
    ∀ idxs st, (binFold loose locate buf base st idxs).stats.bin_hits =
      st.stats.bin_hits + idxs.length := by
  intro idxs
  induction idxs with
  | nil =>
    intro st
    simp [binFold]
  | cons i idxs ih =>
    intro st
    have hstep : binFold loose locate buf base st (i :: idxs) =
        binFold loose locate buf base
          (binHitSt loose locate base i (guid_from_mem (buf.drop i)) st) idxs := rfl
    rw [hstep, ih, binHitSt_binhits]
    simp
    omega

theorem binLoop_eq_fold (loose locate : Bool) (buf : List Nat) (base : Nat) :
    ∀ fuel i st, buf.length + 1 ≤ fuel + i →
    binLoop loose locate buf base fuel i st =
      binFold loose locate buf base st
        ((List.range' i (buf.length + 1 - 16 - i)).filter (binAccepts loose buf)) := by
  intro fuel
  induction fuel with
  | zero =>
    intro i st h
    have hz : buf.length + 1 - 16 - i = 0 := by omega
    rw [hz]
    rfl
  | succ fuel ih =>
    intro i st h
    by_cases h1 : i + 16 ≤ buf.length
    · have hcnt : buf.length + 1 - 16 - i = (buf.length + 1 - 16 - (i + 1)) + 1 := by omega
      rw [binLoop_step loose locate buf base fuel i st h1, hcnt, List.range'_succ,
        List.filter_cons]
      by_cases hacc : binAccepts loose buf i = true
      · rw [if_pos hacc, if_pos hacc]
        have hfold : binFold loose locate buf base st
            (i :: (List.range' (i + 1) (buf.length + 1 - 16 - (i + 1))).filter
              (binAccepts loose buf)) =
            binFold loose locate buf base
              (binHitSt loose locate base i (guid_from_mem (buf.drop i)) st)
              ((List.range' (i + 1) (buf.length + 1 - 16 - (i + 1))).filter
                (binAccepts loose buf)) := rfl
        rw [hfold]
        exact ih (i + 1) _ (by omega)
      · rw [if_neg hacc, if_neg hacc]
        exact ih (i + 1) st (by omega)
    · rw [binLoop_big loose locate buf base (fuel + 1) i st h1]
      have hz : buf.length + 1 - 16 - i = 0 := by omega
      rw [hz]
      rfl

/-! ### Ordered, disjoint spans within one textual pass -/

theorem asciiLoop_hits_pairwise (locate : Bool) (buf : List Nat) (base : Nat) :
    ∀ fuel i st,
    (∀ r ∈ st.hits, r.off + r.consumed ≤ base + i) →
    st.hits.Pairwise (fun x y => x.off + x.consumed ≤ y.off) →
    (asciiLoop locate buf base fuel i st).hits.Pairwise
      (fun x y => x.off + x.consumed ≤ y.off) := by
  intro fuel
  induction fuel with
  | zero =>
    intro i st _ hp
    exact hp
  | succ fuel ih =>
    intro i st hb hp
    by_cases h1 : i + 36 ≤ buf.length
    · by_cases h2 : candidateStart (buf.getD i 0) = true
      · cases hm : match_guid_ascii_at (buf.drop i) with
        | none =>
          rw [asciiLoop_nomatch locate buf base fuel i st h1 h2 hm]
          exact ih (i + 1) st (fun r hr => by have := hb r hr; omega) hp
        | some cg =>
          obtain ⟨c, g⟩ := cg
          rw [asciiLoop_hit locate buf base fuel i c g st h1 h2 hm]
          have hc1 : 1 ≤ c := by
            rcases match_consumed _ c g hm with h | h <;> omega
          apply ih
          · intro r hr
            rw [asciiHitSt_hits] at hr
            by_cases hl : locate = true
            · rw [if_pos hl] at hr
              rcases List.mem_append.1 hr with hr1 | hr2
              · have := hb r hr1
                omega
              · have hre : r = ⟨base + i, c, HitKind.ascii, g⟩ := by simpa using hr2
                rw [hre]
                show base + i + c ≤ base + (i + (c - 1) + 1)
                omega
            · rw [if_neg hl] at hr
              have := hb r hr
              omega
          · rw [asciiHitSt_hits]
            by_cases hl : locate = true
            · rw [if_pos hl]
              apply List.pairwise_append.2
              refine ⟨hp, List.pairwise_singleton _ _, ?_⟩
              intro x hx y hy
              have hye : y = ⟨base + i, c, HitKind.ascii, g⟩ := by simpa using hy
              rw [hye]
              exact hb x hx
            · rw [if_neg hl]
              exact hp
      · rw [asciiLoop_skip locate buf base fuel i st h1 (candidateStart_false_of_not _ h2)]
        exact ih (i + 1) st (fun r hr => by have := hb r hr; omega) hp
    · rw [asciiLoop_big locate buf base (fuel + 1) i st h1]
      exact hp

/-! ### The chunked scan finds the identifier wherever it lies -/

theorem scanChunks_finds (opt : SCANOPTS) :
    ∀ fuel (carry input : List Nat) (a b j base : Nat) (st : ScanSt),
    carry ++ input = List.replicate a 0 ++ (G36 ++ List.replicate b 0) →
    carry.length ≤ OVERLAP →
    carry.length < a + 36 →
    input.length < fuel →
    st.alloc = [] → WF st.set →
    MemT (scanChunks opt none fuel j carry input base st).set gG ∧
    st.stats.ascii_hits < (scanChunks opt none fuel j carry input base st).stats.ascii_hits := by
  intro fuel
  induction fuel with
  | zero =>
    intro carry input a b j base st _ _ _ hfu _ _
    omega
  | succ fuel ih =>
    intro carry input a b j base st hF hclen hext hfu ha hw
    have hFlen : carry.length + input.length = a + (36 + b) := by
      have hlen := congrArg List.length hF
      simpa [G36_length] using hlen
    have hinne : input ≠ [] := by
      intro he
      rw [he] at hFlen
      simp at hFlen
      omega
    have hCHUNKpos : 0 < CHUNK := by norm_num [CHUNK]
    have hO36 : 36 ≤ OVERLAP := by norm_num [OVERLAP]
    have hOC : OVERLAP ≤ CHUNK := by norm_num [OVERLAP, CHUNK]
    have hgotne : ¬ ((input.take CHUNK).length = 0) := by
      rw [List.length_take]
      intro hc
      rcases Nat.min_eq_zero_iff.1 hc with h | h
      · omega
      · exact hinne (List.length_eq_zero.1 h)
    rw [scanChunks_step opt none fuel j carry input base st (by simp) hgotne]
    set buf := carry ++ input.take CHUNK with hbuf
    clear_value buf
    have hbufpref : buf = (List.replicate a 0 ++ (G36 ++ List.replicate b 0)).take
        (carry.length + CHUNK) := by
      rw [← hF, hbuf, List.take_append_eq_append_take,
        List.take_all_of_le (Nat.le_add_right carry.length CHUNK),
        show carry.length + CHUNK - carry.length = CHUNK from by omega]
    have hbuflen : buf.length = carry.length + min CHUNK input.length := by
      rw [hbuf]
      simp [List.length_take]
    have hble : buf.length ≤ carry.length + CHUNK := by
      rw [hbuflen]
      have := Nat.min_le_left CHUNK input.length
      omega
    by_cases hA : a + 36 ≤ buf.length
    · -- the identifier lies fully inside this buffer
      have hzero : ∀ j2, j2 < a → candidateStart (buf.getD j2 0) = false := by
        intro j2 hj2
        rw [hbufpref, getD_take_lt _ _ _ _ (by omega),
          getD_append_lt _ _ _ _ (by simpa using (by omega : j2 < a)),
          getD_replicate_lt _ _ _ _ (by omega)]
        decide
      have hdropA : buf.drop a = G36 ++
          (List.replicate b 0).take (carry.length + CHUNK - a - 36) := by
        rw [hbufpref, List.drop_take, List.drop_append_eq_append_drop, List.drop_replicate,
          Nat.sub_self, List.replicate_zero, List.length_replicate, Nat.sub_self,
          List.drop_zero, List.nil_append, List.take_append_eq_append_take,
          List.take_all_of_le (by rw [G36_length]; omega), G36_length]
      obtain ⟨m1, hlt1⟩ := asciiLoop_finds_G36 opt.locate buf base a _ hzero hdropA hA st ha hw
      obtain ⟨pa1, pa2, _, _⟩ := asciiLoop_preserve opt.locate buf base (buf.length + 1) 0 st ha hw
      by_cases hbin : opt.binary_scan = true
      · rw [if_pos hbin]
        obtain ⟨b1, b2, b3, b4⟩ := binLoop_preserve opt.binary_loose opt.locate buf base
          (buf.length + 1) 0 _ pa1 pa2
        obtain ⟨c1, c2, c3, c4⟩ := scanChunks_preserve opt none fuel (j + 1) _ _ _ _ b1 b2
        exact ⟨c3 gG (b3 gG m1), by omega⟩
      · rw [if_neg hbin]
        obtain ⟨c1, c2, c3, c4⟩ := scanChunks_preserve opt none fuel (j + 1) _ _ _ _ pa1 pa2
        exact ⟨c3 gG m1, by omega⟩
    · -- the identifier extends beyond this buffer: recurse on the carried tail
      have hCle : CHUNK ≤ input.length := by
        by_contra hcl
        have htall : input.take CHUNK = input := List.take_all_of_le (by omega)
        have hble2 : buf.length = carry.length + input.length := by
          rw [hbuflen, Nat.min_eq_right (by omega)]
        omega
      have hLM : buf.length = carry.length + CHUNK := by
        rw [hbuflen, Nat.min_eq_left hCle]
      have hOL : OVERLAP ≤ buf.length := by omega
      have hkeep : min buf.length OVERLAP = OVERLAP := Nat.min_eq_right hOL
      rw [hkeep]
      have hna : buf.length - OVERLAP ≤ a := by omega
      have hsplit : buf ++ input.drop CHUNK = carry ++ input := by
        rw [hbuf, List.append_assoc, List.take_append_drop]
      have hcarry2 : buf.drop (buf.length - OVERLAP) ++ input.drop CHUNK =
          List.replicate (a - (buf.length - OVERLAP)) 0 ++ (G36 ++ List.replicate b 0) := by
        have h1 : buf.drop (buf.length - OVERLAP) ++ input.drop CHUNK =
            (buf ++ input.drop CHUNK).drop (buf.length - OVERLAP) := by
          rw [List.drop_append_eq_append_drop,
            show buf.length - OVERLAP - buf.length = 0 from by omega, List.drop_zero]
        rw [h1, hsplit, hF, List.drop_append_eq_append_drop, List.drop_replicate,
          List.length_replicate, show buf.length - OVERLAP - a = 0 from by omega,
          List.drop_zero]
      have hclen2 : (buf.drop (buf.length - OVERLAP)).length ≤ OVERLAP := by
        rw [List.length_drop]
        omega
      have hext2 : (buf.drop (buf.length - OVERLAP)).length <
          (a - (buf.length - OVERLAP)) + 36 := by
        rw [List.length_drop]
        omega
      have hfu2 : (input.drop CHUNK).length < fuel := by
        rw [List.length_drop]
        omega
      by_cases hbin : opt.binary_scan = true
      · rw [if_pos hbin]
        obtain ⟨pa1, pa2, _, pa4⟩ := asciiLoop_preserve opt.locate buf base
          (buf.length + 1) 0 st ha hw
        obtain ⟨b1, b2, _, b4⟩ := binLoop_preserve opt.binary_loose opt.locate buf base
          (buf.length + 1) 0 _ pa1 pa2
        obtain ⟨m2, hlt2⟩ := ih (buf.drop (buf.length - OVERLAP)) (input.drop CHUNK)
          (a - (buf.length - OVERLAP)) b (j + 1)
          (base + (buf.length - OVERLAP)) _ hcarry2 hclen2 hext2 hfu2 b1 b2
        exact ⟨m2, by omega⟩
      · rw [if_neg hbin]
        obtain ⟨pa1, pa2, _, pa4⟩ := asciiLoop_preserve opt.locate buf base
          (buf.length + 1) 0 st ha hw
        obtain ⟨m2, hlt2⟩ := ih (buf.drop (buf.length - OVERLAP)) (input.drop CHUNK)
          (a - (buf.length - OVERLAP)) b (j + 1)
          (base + (buf.length - OVERLAP)) _ hcarry2 hclen2 hext2 hfu2 pa1 pa2
        exact ⟨m2, by omega⟩

/-! ### Exact evaluation helpers for the two-iteration counterexample -/

theorem asciiHitSt_ascii (locate : Bool) (base i c : Nat) (g : GUID) (st : ScanSt) :
    (asciiHitSt locate base i c g st).stats.ascii_hits = st.stats.ascii_hits + 1 := by
  unfold asciiHitSt
  by_cases hl : locate = true
  · rw [if_pos hl]
    show (addIgnored st g).stats.ascii_hits + 1 = st.stats.ascii_hits + 1
    rfl
  · rw [if_neg hl]
    show (addIgnored st g).stats.ascii_hits + 1 = st.stats.ascii_hits + 1
    rfl

theorem scanChunks_nil (opt : SCANOPTS) (fuel j base : Nat) (carry : List Nat) (st : ScanSt) :
    scanChunks opt none fuel j carry [] base st = st := by
  cases fuel with
  | zero => rfl
  | succ fuel =>
    rw [scanChunks_succ]
    simp

theorem asciiLoop_exact (locate : Bool) (buf : List Nat) (base a fuel : Nat)
    (rest : List Nat)
    (hzero : ∀ j, j < a → candidateStart (buf.getD j 0) = false)
    (hdrop : buf.drop a = G36 ++ rest)
    (hge : a + 36 ≤ buf.length)
    (hlt : buf.length < a + 72)
    (hfuel : buf.length + 1 ≤ fuel) (st : ScanSt) :
    asciiLoop locate buf base fuel 0 st = asciiHitSt locate base a 36 gG st := by
  have hrun := asciiLoop_skip_run locate buf base a fuel 0 st
    (fun j hj => by simpa using hzero j hj) (by omega)
  rw [Nat.zero_add] at hrun
  rw [hrun]
  obtain ⟨f, hf⟩ : ∃ f, fuel - a = f + 1 := ⟨fuel - a - 1, by omega⟩
  rw [hf]
  have h2 : candidateStart (buf.getD a 0) = true := by
    have e := getD_drop buf a 0 0
    rw [hdrop, Nat.add_zero] at e
    rw [← e, getD_append_lt G36 rest 0 0 (by rw [G36_length]; omega)]
    decide
  have h3 : match_guid_ascii_at (buf.drop a) = some (36, gG) := by
    rw [hdrop]
    exact match_at_G36 rest
  rw [asciiLoop_hit locate buf base f a 36 gG st hge h2 h3]
  exact asciiLoop_big locate buf base f (a + (36 - 1) + 1) _ (by omega)

theorem scan_stream_unfold_init (opt : SCANOPTS) (failAt : Option Nat) (file : List Nat) :
    (scan_stream_for_guids opt true failAt file scanInit).2 =
      scanChunks opt failAt (file.length + 1) 0 [] file 0
        ⟨guidset_init 256, ⟨0 + 1, 0 + file.length, 0, 0⟩, [], []⟩ := rfl

/-! ### The streamed scan on a padded identifier file -/

theorem scanStream_finds_aux (opt : SCANOPTS) (a b : Nat) (st : ScanSt)
    (ha : st.alloc = []) (hw : WF st.set) :
    (scan_stream_for_guids opt true none
      (List.replicate a 0 ++ G36 ++ List.replicate b 0) st).1 = true ∧
    MemT (scan_stream_for_guids opt true none
      (List.replicate a 0 ++ G36 ++ List.replicate b 0) st).2.set gG ∧
    st.stats.ascii_hits <
      (scan_stream_for_guids opt true none
        (List.replicate a 0 ++ G36 ++ List.replicate b 0) st).2.stats.ascii_hits := by
  obtain ⟨hm, hlt⟩ := scanChunks_finds opt
    ((List.replicate a 0 ++ G36 ++ List.replicate b 0).length + 1) []
    (List.replicate a 0 ++ G36 ++ List.replicate b 0) a b 0 0
    { st with stats := { st.stats with files_scanned := st.stats.files_scanned + 1, bytes_scanned := st.stats.bytes_scanned + (List.replicate a 0 ++ G36 ++ List.replicate b 0).length } }
    (by rw [List.nil_append, List.append_assoc])
    (by simp)
    (by simp only [List.length_nil]; omega)
    (by omega) ha hw
  exact ⟨rfl, hm, hlt⟩

/-! ## Claim theorems -/

set_option maxRecDepth 100000

/-- Claim C4: every 16-byte window accepted by the strict binary heuristic
is also accepted by the loose binary heuristic. -/
theorem strict_accepts_subset_loose (b : List Nat) (hlen : b.length = 16)
    (h : looks_like_guid_memlayout_rfc4122 b = true) :
    looks_like_guid_memlayout_loose b = true := by
  unfold looks_like_guid_memlayout_rfc4122 at h
  unfold looks_like_guid_memlayout_loose
  split at h
  · exact absurd h (by simp)
  · next hvar =>
    simpa using of_not_not hvar

/-- Witness for C4: a concrete version-4, variant-10 window is accepted by
the strict heuristic, hence by the loose one. -/
theorem strict_accepts_subset_loose_witness :
    looks_like_guid_memlayout_loose
      [0, 0, 0, 0, 0, 0, 0, 74, 128, 0, 0, 0, 0, 0, 0, 0] = true :=
  strict_accepts_subset_loose
    [0, 0, 0, 0, 0, 0, 0, 74, 128, 0, 0, 0, 0, 0, 0, 0]
    (by decide) (by decide)

/-- Claim C5: the IdentifierSet keeps its capacity a power of two of at
least 64; an insert at the load threshold (count + 1) * 10 >= capacity * 7
doubles the capacity, re-inserting every element; and after any sequence
of inserts every previously inserted identifier is still present. -/
theorem guidset_growth_safety (gs : List GUID) (gq : GUID) (hq : gq ∈ gs) :
    (∃ k, (insertAll (guidset_init 64) gs).cap = 2 ^ k) ∧
    64 ≤ (insertAll (guidset_init 64) gs).cap ∧
    guidset_mem (insertAll (guidset_init 64) gs) gq = true ∧
    (((insertAll (guidset_init 64) gs).len + 1) * 10 ≥
        (insertAll (guidset_init 64) gs).cap * 7 →
      ∀ g2, (guidset_add [] (insertAll (guidset_init 64) gs) g2).2.1.cap =
          2 * (insertAll (guidset_init 64) gs).cap ∧
        guidset_mem (guidset_add [] (insertAll (guidset_init 64) gs) g2).2.1 gq = true) := by
  obtain ⟨hwf, hmem⟩ := insertAll_spec gs (guidset_init 64) WF_init64
  have hmq : MemT (insertAll (guidset_init 64) gs) gq := (hmem gq).2 (Or.inl hq)
  refine ⟨hwf.pow, hwf.min64, (guidset_mem_iff _ _).2 hmq, ?_⟩
  intro hth g2
  have hstep := guidset_add_spec _ g2 hwf
  constructor
  · rw [hstep.2.2.2.2.2, if_pos hth]
  · exact (guidset_mem_iff _ _).2 ((hstep.2.2.2.1 gq).2 (Or.inr hmq))

/-- Witness for C5 at a singleton insertion. -/
theorem guidset_growth_safety_witness :
    (∃ k, (insertAll (guidset_init 64) [gG]).cap = 2 ^ k) ∧
    64 ≤ (insertAll (guidset_init 64) [gG]).cap ∧
    guidset_mem (insertAll (guidset_init 64) [gG]) gG = true ∧
    (((insertAll (guidset_init 64) [gG]).len + 1) * 10 ≥
        (insertAll (guidset_init 64) [gG]).cap * 7 →
      ∀ g2, (guidset_add [] (insertAll (guidset_init 64) [gG]) g2).2.1.cap =
          2 * (insertAll (guidset_init 64) [gG]).cap ∧
        guidset_mem (guidset_add [] (insertAll (guidset_init 64) [gG]) g2).2.1 gG = true) :=
  guidset_growth_safety [gG] gG (by decide)

/-- Claim C6: inserting one identifier N >= 1 times yields count 1;
inserting a list of distinct identifiers yields their number; re-inserting
a batch of already present identifiers leaves the count unchanged. -/
theorem guidset_dedup_counts (g : GUID) (N : Nat) (hN : 1 ≤ N)
    (gs gs2 : List GUID) (hnd : gs.Nodup) (hsub : ∀ x ∈ gs2, x ∈ gs) :
    (insertAll (guidset_init 64) (List.replicate N g)).len = 1 ∧
    (insertAll (guidset_init 64) gs).len = gs.length ∧
    (insertAll (insertAll (guidset_init 64) gs) gs2).len = gs.length := by
  obtain ⟨hwf0, hcap0, hlen0, hnm0⟩ := guidset_init_facts 64 6 (by norm_num) (by norm_num)
  have h2 : (insertAll (guidset_init 64) gs).len = gs.length := by
    rw [insertAll_len_new gs (guidset_init 64) hwf0 hnd (fun x _ hm => hnm0 x hm), hlen0]
    omega
  obtain ⟨hwfg, hmemg⟩ := insertAll_spec gs (guidset_init 64) hwf0
  refine ⟨?_, h2, ?_⟩
  · obtain ⟨M, rfl⟩ : ∃ M, N = M + 1 := ⟨N - 1, by omega⟩
    have hrep : List.replicate (M + 1) g = g :: List.replicate M g := List.replicate_succ g M
    rw [hrep]
    have hstep := guidset_add_spec (guidset_init 64) g hwf0
    have hlen1 : (guidset_add [] (guidset_init 64) g).2.1.len = 1 := by
      rw [hstep.2.2.2.2.1, if_neg (fun hc => hnm0 g ((guidset_mem_iff _ _).1 hc)), hlen0]
    have hA : insertAll (guidset_init 64) (g :: List.replicate M g) =
        insertAll (guidset_add [] (guidset_init 64) g).2.1 (List.replicate M g) := rfl
    rw [hA, insertAll_len_dup (List.replicate M g) _ hstep.2.2.1 ?hall, hlen1]
    case hall =>
      intro x hx
      rw [List.eq_of_mem_replicate hx]
      exact (hstep.2.2.2.1 g).2 (Or.inl rfl)
  · rw [insertAll_len_dup gs2 _ hwfg ?hall2, h2]
    case hall2 =>
      intro x hx
      exact (hmemg x).2 (Or.inl (hsub x hx))

/-- Witness for C6 at small concrete batches. -/
theorem guidset_dedup_counts_witness :
    (insertAll (guidset_init 64) (List.replicate 2 gG)).len = 1 ∧
    (insertAll (guidset_init 64) [gT1, gT2]).len = [gT1, gT2].length ∧
    (insertAll (insertAll (guidset_init 64) [gT1, gT2]) [gT1]).len = [gT1, gT2].length :=
  guidset_dedup_counts gG 2 (by decide) [gT1, gT2] [gT1] (by decide) (by decide)

/-- Claim C10: in guidset_add the load-factor check runs before the
membership check, so re-inserting an identifier that is already present
leaves count unchanged but, at the growth threshold, still doubles the
capacity: a duplicate insert is not a pure no-op. -/
theorem duplicate_insert_rehashes (gs : List GUID) (g : GUID) (hg : g ∈ gs)
    (hth : ((insertAll (guidset_init 64) gs).len + 1) * 10 ≥
      (insertAll (guidset_init 64) gs).cap * 7) :
    (guidset_add [] (insertAll (guidset_init 64) gs) g).2.1.len =
      (insertAll (guidset_init 64) gs).len ∧
    (guidset_add [] (insertAll (guidset_init 64) gs) g).2.1.cap =
      2 * (insertAll (guidset_init 64) gs).cap := by
  obtain ⟨hwf, hmem⟩ := insertAll_spec gs _ WF_init64
  have hstep := guidset_add_spec _ g hwf
  constructor
  · rw [hstep.2.2.2.2.1, if_pos ((guidset_mem_iff _ _).2 ((hmem g).2 (Or.inl hg)))]
  · rw [hstep.2.2.2.2.2, if_pos hth]

/-- Witness for C10: a duplicate insert into a threshold-filled 64-slot
table keeps len = 44 but doubles cap to 128. -/
theorem duplicate_insert_rehashes_witness :
    (guidset_add [] (insertAll (guidset_init 64) gs44)
        (⟨1, 0, 0, List.replicate 8 0⟩ : GUID)).2.1.len =
      (insertAll (guidset_init 64) gs44).len ∧
    (guidset_add [] (insertAll (guidset_init 64) gs44)
        (⟨1, 0, 0, List.replicate 8 0⟩ : GUID)).2.1.cap =
      2 * (insertAll (guidset_init 64) gs44).cap :=
  duplicate_insert_rehashes gs44 ⟨1, 0, 0, List.replicate 8 0⟩ (by decide) (by decide)

/-- Claim C1 counterexample: with the set at the growth threshold and the
next allocation failing, scanning a file with two fresh identifiers does
not abort: the scan reports success, counts both ascii hits, silently
drops the first identifier, and still inserts the second one after a later
growth succeeds. -/
theorem scan_continues_after_failed_growth :
    (scan_stream_for_guids optLocate true none c1file c1st).1 = true ∧
    (scan_stream_for_guids optLocate true none c1file c1st).2.stats.ascii_hits = 2 ∧
    guidset_mem (scan_stream_for_guids optLocate true none c1file c1st).2.set gT1 = false ∧
    guidset_mem (scan_stream_for_guids optLocate true none c1file c1st).2.set gT2 = true := by
  decide

/-- Claim C1 amended: a failed IdentifierSet growth does not abort the
scan.  guidset_add reports the failure (returns 0) and leaves the set
untouched, but scan_stream_for_guids discards that return value: any scan
whose open succeeded returns success, whatever the allocation oracle. -/
theorem growth_failure_not_fatal :
    (∀ (opt : SCANOPTS) (failAt : Option Nat) (file : List Nat) (st : ScanSt),
      (scan_stream_for_guids opt true failAt file st).1 = true) ∧
    (∀ (alloc : List Bool) (s : GUIDSET) (g : GUID),
      (s.len + 1) * 10 ≥ s.cap * 7 →
      (guidset_rehash alloc s (s.cap * 2)).1 = none →
      guidset_add alloc s g = (false, s, (guidset_rehash alloc s (s.cap * 2)).2)) := by
  constructor
  · intro opt failAt file st
    rfl
  · intro alloc s g hth hre
    unfold guidset_add
    rw [if_pos hth]
    rcases hrw : guidset_rehash alloc s (s.cap * 2) with ⟨o, a2⟩
    rw [hrw] at hre
    simp only at hre
    subst hre
    rfl

/-- Witness for the C1 amended theorem: a concrete failed growth returns 0
with the set untouched. -/
theorem growth_failure_not_fatal_witness :
    guidset_add [false] s44 gT1 = (false, s44, (guidset_rehash [false] s44 (s44.cap * 2)).2) :=
  growth_failure_not_fatal.2 [false] s44 gT1 (by decide) (by decide)

/-- Claim C7: scanning the text Hello {6F9619FF-8B86-D011-B42D-00C04FC964FF}
world yields exactly one ascii match, consuming the 38-byte braced form at
offset 6 (the brace), decoded to Data1 = 6F9619FF, Data2 = 8B86, Data3 =
D011 and tail bytes B4 2D 00 C0 4F C9 64 FF. -/
theorem scan_hello_one_ascii_match :
    (scan_stream_for_guids optLocate true none c7file scanInit).2.hits =
      [⟨6, 38, HitKind.ascii, gG⟩] ∧
    (scan_stream_for_guids optLocate true none c7file scanInit).2.stats.ascii_hits = 1 ∧
    gG = ⟨0x6F9619FF, 0x8B86, 0xD011, [0xB4, 0x2D, 0x00, 0xC0, 0x4F, 0xC9, 0x64, 0xFF]⟩ := by
  decide

/-- Claim C3: with the implemented chunk size (4 MiB) and overlap (64 bytes,
at least 38), a file carrying one canonical textual identifier at an
arbitrary byte offset a -- offsets placing it astride a chunk boundary
included -- yields that identifier: the scan reports success, the decoded
value gG is a member of the set, and ascii_hits counts it at least once,
whatever a is. -/
theorem boundary_invariance (opt : SCANOPTS) (a b : Nat) :
    (scan_stream_for_guids opt true none
      (List.replicate a 0 ++ G36 ++ List.replicate b 0) scanInit).1 = true ∧
    guidset_mem (scan_stream_for_guids opt true none
      (List.replicate a 0 ++ G36 ++ List.replicate b 0) scanInit).2.set gG = true ∧
    1 ≤ (scan_stream_for_guids opt true none
      (List.replicate a 0 ++ G36 ++ List.replicate b 0) scanInit).2.stats.ascii_hits := by
  obtain ⟨h1, h2, h3⟩ := scanStream_finds_aux opt a b scanInit rfl WF_init256
  refine ⟨h1, (guidset_mem_iff _ _).2 h2, ?_⟩
  have h0 : scanInit.stats.ascii_hits = 0 := rfl
  omega

/-- Claim C2 amended: within a single textual pass over one buffer the
emitted records are ordered with disjoint spans -- each match ends at or
before the next begins, so no two overlapping textual matches are reported
inside one pass.  The across-iteration half of the original claim is
false: the counterexample theorem shows a match lying in the carried
overlap re-detected and re-counted by the following read iteration. -/
theorem ascii_no_overlap_within_pass (locate : Bool) (buf : List Nat)
    (base fuel : Nat) (set : GUIDSET) (stats : SCANSTATS) (alloc : List Bool) :
    (asciiLoop locate buf base fuel 0 ⟨set, stats, [], alloc⟩).hits.Pairwise
      (fun x y => x.off + x.consumed ≤ y.off) := by
  apply asciiLoop_hits_pairwise
  · intro r hr
    cases hr
  · exact List.Pairwise.nil

/-- Claim C8: with binary scanning enabled the window start slides by one
byte, never skipping past a successful match: the binary pass equals one
detection folded in order over exactly the accepted window starts among
every offset with at least 16 bytes remaining, so overlapping accepted
windows are each reported, and bin_hits grows by exactly the number of
accepted windows. -/
theorem binary_scan_per_window (loose locate : Bool) (buf : List Nat) (base : Nat)
    (st : ScanSt) :
    binLoop loose locate buf base (buf.length + 1) 0 st =
      binFold loose locate buf base st
        ((binaryWindowStarts buf).filter (binAccepts loose buf)) ∧
    (binLoop loose locate buf base (buf.length + 1) 0 st).stats.bin_hits =
      st.stats.bin_hits +
        ((binaryWindowStarts buf).filter (binAccepts loose buf)).length := by
  have h1 := binLoop_eq_fold loose locate buf base (buf.length + 1) 0 st (by omega)
  have hws : binaryWindowStarts buf =
      List.range' 0 (buf.length + 1 - 16 - 0) := by
    unfold binaryWindowStarts
    rw [List.range_eq_range']
    congr 1
  constructor
  · rw [h1, hws]
  · rw [h1, binFold_binhits, hws]

/-- Claim C9: a failed open or attribute query makes the walk skip exactly
that entry -- deleting a skipped entry from a sibling list leaves the walk
state unchanged -- and a file whose open succeeded is streamed in place with
the walk continuing over the remaining entries even when a read fails
mid-stream; such failures are never fatal to the walk. -/
theorem walk_skips_failed_entries (opt : SCANOPTS) (pre post : List FSNode)
    (bad : FSNode) (hbad : skippedEntry bad = true) (st : ScanSt) :
    scanChildren opt (pre ++ bad :: post) st = scanChildren opt (pre ++ post) st ∧
    ∀ (failAt : Option Nat) (data : List Nat) (rest : List FSNode) (st2 : ScanSt),
      scanChildren opt (FSNode.file false true failAt data :: rest) st2 =
        scanChildren opt rest ((scan_stream_for_guids opt true failAt data st2).2) := by
  constructor
  · induction pre generalizing st with
    | nil =>
      rw [List.nil_append, List.nil_append]
      have hid : (if bad.isReparse then st else scan_path_recursive opt bad st) = st := by
        cases bad with
        | file rp ok failAt data =>
          cases rp
          · cases ok
            · simp [FSNode.isReparse, scan_path_recursive, scan_stream_for_guids]
            · simp [skippedEntry] at hbad
          · simp [FSNode.isReparse]
        | dir rp ok children =>
          cases rp
          · cases ok
            · simp [FSNode.isReparse, scan_path_recursive]
            · simp [skippedEntry] at hbad
          · simp [FSNode.isReparse]
      rw [show scanChildren opt (bad :: post) st = scanChildren opt post
          (if bad.isReparse then st else scan_path_recursive opt bad st) from rfl, hid]
    | cons c cs ih =>
      rw [List.cons_append, List.cons_append,
        show scanChildren opt (c :: (cs ++ bad :: post)) st = scanChildren opt
          (cs ++ bad :: post) (if c.isReparse then st else scan_path_recursive opt c st)
          from rfl,
        show scanChildren opt (c :: (cs ++ post)) st = scanChildren opt
          (cs ++ post) (if c.isReparse then st else scan_path_recursive opt c st)
          from rfl,
        ih]
  · intro failAt data rest st2
    rfl

/-- Witness for C9: a file entry whose open failed is skipped, and deleting
it from its sibling list leaves the walk unchanged. -/
theorem walk_skips_failed_entries_witness :
    skippedEntry (FSNode.file false false none []) = true ∧
    (scanChildren optLocate ([] ++ FSNode.file false false none [] :: []) scanInit =
        scanChildren optLocate ([] ++ []) scanInit ∧
      ∀ (failAt : Option Nat) (data : List Nat) (rest : List FSNode) (st2 : ScanSt),
        scanChildren optLocate (FSNode.file false true failAt data :: rest) st2 =
          scanChildren optLocate rest
            ((scan_stream_for_guids optLocate true failAt data st2).2)) :=
  ⟨rfl, walk_skips_failed_entries optLocate [] []
    (FSNode.file false false none []) rfl scanInit⟩

/-- Claim C2 counterexample: in c2file the single textual identifier
occupies the final 36 bytes of the first 4 MiB chunk, so its start lies
within the carried 64-byte overlap; the scan reports the one occurrence
twice -- ascii_hits ends at 2 and two identical locate records are emitted
for the same character span. -/
theorem overlap_match_double_counted :
    (scan_stream_for_guids optLocate true none c2file scanInit).2.stats.ascii_hits = 2 ∧
    (scan_stream_for_guids optLocate true none c2file scanInit).2.hits =
      [⟨CHUNK - 36, 36, HitKind.ascii, gG⟩, ⟨CHUNK - 36, 36, HitKind.ascii, gG⟩] := by
  have hZl : (List.replicate (CHUNK - 36) 0 ++ G36).length = CHUNK := by
    rw [List.length_append, List.length_replicate, G36_length]
    norm_num [CHUNK]
  have hlen : c2file.length = CHUNK + 1 := by
    rw [show c2file = (List.replicate (CHUNK - 36) 0 ++ G36) ++ [0] from rfl,
      List.length_append, hZl, List.length_singleton]
  have htake1 : c2file.take CHUNK = List.replicate (CHUNK - 36) 0 ++ G36 := by
    rw [show c2file = (List.replicate (CHUNK - 36) 0 ++ G36) ++ [0] from rfl,
      List.take_append_eq_append_take, List.take_all_of_le (le_of_eq hZl), hZl,
      Nat.sub_self]
    simp
  have hgot1 : ¬ ((c2file.take CHUNK).length = 0) := by
    rw [htake1, hZl]
    norm_num [CHUNK]
  have hdropC : c2file.drop CHUNK = [0] := by
    rw [show c2file = (List.replicate (CHUNK - 36) 0 ++ G36) ++ [0] from rfl,
      List.drop_append_eq_append_drop, List.drop_eq_nil_of_le (le_of_eq hZl), hZl,
      Nat.sub_self]
    simp
  have hz1 : ∀ j, j < CHUNK - 36 →
      candidateStart ((List.replicate (CHUNK - 36) 0 ++ G36).getD j 0) = false := by
    intro j hj
    rw [getD_append_lt _ _ _ _ (by rw [List.length_replicate]; exact hj),
      getD_replicate_lt _ _ _ _ hj]
    decide
  have hd1 : (List.replicate (CHUNK - 36) 0 ++ G36).drop (CHUNK - 36) = G36 ++ [] := by
    rw [List.drop_append_eq_append_drop, List.drop_replicate, List.length_replicate,
      Nat.sub_self, List.replicate_zero, List.drop_zero, List.nil_append, List.append_nil]
  have hge1 : CHUNK - 36 + 36 ≤ (List.replicate (CHUNK - 36) 0 ++ G36).length := by
    rw [hZl]
    norm_num [CHUNK]
  have hlt1 : (List.replicate (CHUNK - 36) 0 ++ G36).length < CHUNK - 36 + 72 := by
    rw [hZl]
    norm_num [CHUNK]
  have hfu1 : (List.replicate (CHUNK - 36) 0 ++ G36).length + 1 ≤ CHUNK + 1 := by
    rw [hZl]
  have hdrop2 : (List.replicate (CHUNK - 36) 0 ++ G36).drop (CHUNK - OVERLAP) =
      List.replicate 28 0 ++ G36 := by
    rw [List.drop_append_eq_append_drop, List.drop_replicate, List.length_replicate]
    norm_num [CHUNK, OVERLAP, List.drop_zero]
  have hstep1 : (scan_stream_for_guids optLocate true none c2file scanInit).2 =
      scanChunks optLocate none (CHUNK + 1) 1
        ((List.replicate (CHUNK - 36) 0 ++ G36).drop (CHUNK - OVERLAP)) [0]
        (CHUNK - OVERLAP)
        (asciiHitSt optLocate.locate 0 (CHUNK - 36) 36 gG
          ⟨guidset_init 256, ⟨0 + 1, 0 + (CHUNK + 1), 0, 0⟩, [], []⟩) := by
    rw [scan_stream_unfold_init optLocate none c2file,
      hlen,
      scanChunks_step optLocate none (CHUNK + 1) 0 [] c2file 0
        ⟨guidset_init 256, ⟨0 + 1, 0 + (CHUNK + 1), 0, 0⟩, [], []⟩ (by simp) hgot1,
      List.nil_append, htake1, hdropC, hZl,
      show min CHUNK OVERLAP = OVERLAP from by norm_num [CHUNK, OVERLAP],
      if_neg (show ¬ (optLocate.binary_scan = true) from by decide),
      asciiLoop_exact optLocate.locate (List.replicate (CHUNK - 36) 0 ++ G36) 0
        (CHUNK - 36) (CHUNK + 1) [] hz1 hd1 hge1 hlt1 hfu1
        ⟨guidset_init 256, ⟨0 + 1, 0 + (CHUNK + 1), 0, 0⟩, [], []⟩]
    simp only [Nat.zero_add]
  have htk2 : ([0] : List Nat).take CHUNK = [0] :=
    List.take_all_of_le (show ([0] : List Nat).length ≤ CHUNK from by norm_num [CHUNK])
  have hstep2 : ∀ st : ScanSt, scanChunks optLocate none (CHUNK + 1) 1
      (List.replicate 28 0 ++ G36) [0] (CHUNK - OVERLAP) st =
      asciiHitSt optLocate.locate (CHUNK - OVERLAP) 28 36 gG st := by
    intro st
    rw [scanChunks_step optLocate none CHUNK 1 (List.replicate 28 0 ++ G36) [0]
        (CHUNK - OVERLAP) st (by simp) (by rw [htk2]; simp),
      htk2,
      show ((List.replicate 28 0 ++ G36) ++ [0] : List Nat).length = 65 from by
        rw [List.length_append, List.length_append, List.length_replicate, G36_length,
          List.length_singleton],
      show ([0] : List Nat).drop CHUNK = [] from
        List.drop_eq_nil_of_le (by norm_num [CHUNK]),
      show min 65 OVERLAP = 64 from by norm_num [OVERLAP],
      if_neg (show ¬ (optLocate.binary_scan = true) from by decide),
      asciiLoop_exact optLocate.locate ((List.replicate 28 0 ++ G36) ++ [0])
        (CHUNK - OVERLAP) 28 (65 + 1) [0] (by decide) (by decide) (by decide)
        (by decide) (by decide) st,
      scanChunks_nil]
  rw [hdrop2] at hstep1
  have hfin : (scan_stream_for_guids optLocate true none c2file scanInit).2 =
      asciiHitSt optLocate.locate (CHUNK - OVERLAP) 28 36 gG
        (asciiHitSt optLocate.locate 0 (CHUNK - 36) 36 gG
          ⟨guidset_init 256, ⟨0 + 1, 0 + (CHUNK + 1), 0, 0⟩, [], []⟩) := by
    rw [hstep1, hstep2]
  constructor
  · rw [hfin, asciiHitSt_ascii, asciiHitSt_ascii]
  · rw [hfin, asciiHitSt_hits, if_pos (show optLocate.locate = true from rfl),
      asciiHitSt_hits, if_pos (show optLocate.locate = true from rfl)]
    norm_num [CHUNK, OVERLAP]

end Quuid
